import Mathlib

/-
Verification development for the floorplan repository
(floorplan_core.py and floorplan_algorithm.py).

Modelling conventions used by the shallow embedding below:

* Python numbers (ints and floats) are modelled as exact rationals `ℚ`.
  Floating-point rounding, overflow and `float` special values are idealized:
  `float("inf")` results are modelled with `Option ℚ` (`none` standing for
  the infinite cost of a degenerate layout), and a comparison of the form
  `a > b ** 0.5` (the only places a square root is taken, both with a
  nonnegative radicand in any reachable state) is encoded algebraically as
  `0 < a ∧ b < a ^ 2`, which is equivalent over the reals.
* Python objects are mutable and aliased.  Block identity is modelled by an
  index into a `Store := List Block`; a `FloorPlan` holds the list of indices
  of the blocks added to it plus its cached bounding box, exactly like the
  Python class caches `bounding_width`/`bounding_height`.  `copy.deepcopy`
  of a floorplan becomes a plain value copy of the `(Store, FloorPlan)` pair.
* The `random` module is modelled by an oracle `Oracle := Nat → Nat`, an
  arbitrary stream of draws, threaded by a read position.  Each primitive
  consumes a fixed number of draws and interprets them so that every outcome
  the Python primitive can produce corresponds to some oracle value
  (`choices` and `choice` reduce the draw modulo the number of alternatives,
  `randint a b` maps a draw into `[a, b]`, `sample`/`shuffle` draw indices
  into the remaining elements).  The probabilistic Metropolis test
  `random.random() < math.exp(-delta / temperature)` is always true when
  `delta ≤ 0` and can go either way when `delta > 0`; its outcome is taken
  from the oracle in that case.
* Python `while` loops without an intrinsic iteration bound are embedded
  with an explicit fuel argument that is computed, at each call site, from
  the quantity the loop decreases, so that the fuel can never run out before
  the loop condition fails; fuel-insensitivity theorems below make this
  exact.  Loops that Python already bounds (`range(...)`, `max_iterations`)
  are embedded as structural recursion on the same bound.
* A Python `set` of blocks is modelled as a duplicate-free list in first
  insertion order.
-/

set_option allowUnsafeReducibility true in
attribute [semireducible] Rat.add Rat.mul Rat.sub Rat.neg Rat.div Rat.inv

/-- Python `int(q)` : truncation toward zero. -/
def pyInt (q : ℚ) : ℤ := if 0 ≤ q then ⌊q⌋ else -⌊-q⌋

/-- Python `range(a, b, s)` for a positive step `s`. -/
def pyRange (a b s : ℤ) : List ℤ :=
  (List.range ((b - a + s - 1).ediv s).toNat).map (fun i => a + s * i)

/-- Python `max` of a nonempty list of numbers (`0` on `[]`, which Python
would reject; every call site passes a nonempty list). -/
def pyMax (l : List ℚ) : ℚ :=
  match l with
  | [] => 0
  | h :: t => t.foldl max h

/-- Python `sum` of a list of numbers. -/
def pySum (l : List ℚ) : ℚ := l.foldl (· + ·) 0

/-- Comparison `a < b` where `b : Option ℚ` models a float that can be
`float("inf")` (`none`). -/
def ltOpt (a : ℚ) (b : Option ℚ) : Bool :=
  match b with
  | none => true
  | some q => decide (a < q)

/-- Comparison `a < b` where `a b : Option ℚ` model floats that can be
`float("inf")` (`none`): in Python `inf < x` is false and `x < inf` is true
for finite `x`. -/
def ltOptOpt (a b : Option ℚ) : Bool :=
  match a, b with
  | none, _ => false
  | some _, none => true
  | some q, some r => decide (q < r)

/-- Comparison `a < b` where `b : Option Nat` models the
`best_overlap_count = float("inf")` initializer. -/
def ltOptNat (a : Nat) (b : Option Nat) : Bool :=
  match b with
  | none => true
  | some n => decide (a < n)

/-- Python truthiness of an optional string (`None` and `""` are falsy). -/
def truthyStr : Option String → Bool
  | none => false
  | some s => !(s == "")

/-- The value of an optional string, `""` when absent. -/
def strVal : Option String → String
  | none => ""
  | some s => s

/-- Does the second character list start with the first one? -/
def startsWithChars : List Char → List Char → Bool
  | [], _ => true
  | _ :: _, [] => false
  | c :: cs, d :: ds => c == d && startsWithChars cs ds

/-- Does the haystack contain the needle as a contiguous run? -/
def hasSubstrChars (needle : List Char) : List Char → Bool
  | [] => needle.isEmpty
  | d :: rest => startsWithChars needle (d :: rest) || hasSubstrChars needle rest

/-- Python substring test `"corner" in pref`. -/
def containsCorner (pref : String) : Bool :=
  hasSubstrChars "corner".data pref.data

/-- The literal `"don't care"` from the Python source (the default
`preferred_location`). -/
def dontCare : String := "don\x27t care"

/-- Insert into a sorted list, before the first element that is not
strictly earlier. -/
def insertLe {α : Type} (le : α → α → Bool) (a : α) : List α → List α
  | [] => [a]
  | b :: bs => if le a b then a :: b :: bs else b :: insertLe le a bs

/-- Stable insertion sort.  Python `list.sort` is stable, and for a total
preorder the stable sort of a list is unique, so this reproduces the
source's sort results exactly (ascending with `le a b := key a ≤ key b`,
descending with `le a b := key b ≤ key a`; ties keep input order in both
encodings). -/
def stableSort {α : Type} (le : α → α → Bool) : List α → List α
  | [] => []
  | a :: as => insertLe le a (stableSort le as)

/-- Core data model: `Block` from floorplan_core.py.  The constructor
defaults (`x = y = 0`, `rotated = False`, `original_* = *`) are provided by
`Block.mk0` below. -/
structure Block where
  name : String
  original_width : ℚ
  original_height : ℚ
  width : ℚ
  height : ℚ
  preferred_location : String
  neighbor : Option String
  x : ℚ
  y : ℚ
  rotated : Bool
deriving DecidableEq, Repr, Inhabited

/-- `Block.__init__`: a fresh block at the origin in original orientation. -/
def Block.mk0 (name : String) (width height : ℚ) (pref : String)
    (neighbor : Option String) : Block :=
  { name := name, original_width := width, original_height := height,
    width := width, height := height, preferred_location := pref,
    neighbor := neighbor, x := 0, y := 0, rotated := false }

/-- `Block.rotate`: swap width and height and flip the `rotated` flag. -/
def Block.rotate (b : Block) : Block :=
  { b with width := b.height, height := b.width, rotated := !b.rotated }

/-- `Block.get_area`. -/
def Block.get_area (b : Block) : ℚ := b.width * b.height

/-- `Block.overlaps`: strict interior intersection of the two rectangles. -/
def Block.overlaps (a b : Block) : Bool :=
  !(decide (a.x + a.width ≤ b.x) || decide (b.x + b.width ≤ a.x) ||
    decide (a.y + a.height ≤ b.y) || decide (b.y + b.height ≤ a.y))

/-- `Block.abuts`: edge-to-edge adjacency with overlapping projection on the
perpendicular axis. -/
def Block.abuts (a b : Block) : Bool :=
  let horizontal_abut :=
    (decide (a.x + a.width = b.x) || decide (b.x + b.width = a.x)) &&
    !(decide (a.y + a.height ≤ b.y) || decide (b.y + b.height ≤ a.y))
  let vertical_abut :=
    (decide (a.y + a.height = b.y) || decide (b.y + b.height = a.y)) &&
    !(decide (a.x + a.width ≤ b.x) || decide (b.x + b.width ≤ a.x))
  horizontal_abut || vertical_abut

/-- The mutable heap of block objects: block identity is the index. -/
abbrev Store := List Block

/-- Read the block at index `i` (all reachable indices are in bounds). -/
def Store.getB (s : Store) (i : Nat) : Block := s.getD i default

/-- Write the block at index `i`. -/
def Store.setB (s : Store) (i : Nat) (b : Block) : Store := s.set i b

/-- `FloorPlan` from floorplan_core.py: the list of added block indices and
the cached bounding box. -/
structure FloorPlan where
  blocks : List Nat
  bounding_width : ℚ
  bounding_height : ℚ
deriving DecidableEq, Repr, Inhabited

/-- `FloorPlan.__init__`: an empty floorplan. -/
def FloorPlan.empty : FloorPlan :=
  { blocks := [], bounding_width := 0, bounding_height := 0 }

/-- `FloorPlan.add_block`. -/
def FloorPlan.add_block (fp : FloorPlan) (i : Nat) : FloorPlan :=
  { fp with blocks := fp.blocks ++ [i] }

/-- `FloorPlan.update_bounding_box`. -/
def FloorPlan.update_bounding_box (s : Store) (fp : FloorPlan) : FloorPlan :=
  match fp.blocks with
  | [] => { fp with bounding_width := 0, bounding_height := 0 }
  | _ =>
    { fp with
      bounding_width := pyMax (fp.blocks.map (fun i => (s.getB i).x + (s.getB i).width)),
      bounding_height := pyMax (fp.blocks.map (fun i => (s.getB i).y + (s.getB i).height)) }

/-- `FloorPlan.get_area`: product of the cached bounding dimensions. -/
def FloorPlan.get_area (fp : FloorPlan) : ℚ := fp.bounding_width * fp.bounding_height

/-- Inner loop of `FloorPlan.has_overlaps`: check the block at the head
against every later one, then recurse. -/
def hasOverlapsAux (s : Store) : List Nat → Bool
  | [] => false
  | i :: rest => rest.any (fun j => (s.getB i).overlaps (s.getB j)) || hasOverlapsAux s rest

/-- `FloorPlan.has_overlaps`: some earlier block overlaps some later one. -/
def FloorPlan.has_overlaps (s : Store) (fp : FloorPlan) : Bool :=
  hasOverlapsAux s fp.blocks

/-- Name of the block at index `i`. -/
def nameOf (s : Store) (i : Nat) : String := (s.getB i).name

/-- The dict `{b.name: b for b in blocks}` of `_group_neighbors`, over
indices (later blocks overwrite earlier ones with the same name). -/
def blockMapIdx (s : Store) (n : String) : Option Nat :=
  (List.range s.length).foldl
    (fun acc i => if nameOf s i == n then some i else acc) none

/-- The dict `depends_on` of `_group_neighbors`: the neighbor name recorded
for key `n` is the one of the last block named `n` whose `neighbor` field is
truthy. -/
def dependsOn (s : Store) (n : String) : Option String :=
  (s.filter (fun b => truthyStr b.neighbor && b.name == n)).getLast?.map
    (fun b => strVal b.neighbor)

/-- The dict `depended_by` of `_group_neighbors`: the names, in block order,
of the blocks with a truthy `neighbor` field equal to `n`. -/
def dependedBy (s : Store) (n : String) : List String :=
  (s.filter (fun b => truthyStr b.neighbor && strVal b.neighbor == n)).map
    (fun b => b.name)

/-- The backward walk of `_group_neighbors` that finds the root of the chain
containing `current`.  The walk adds one new member per step, so
`s.length + 1` units of fuel can never run out before a `break`. -/
def chainRoot (s : Store) : Nat → Nat → List String → Nat
  | 0, current, _ => current
  | fuel + 1, current, members =>
    match dependsOn s (nameOf s current) with
    | none => current
    | some nn =>
      if nn ∈ members then current
      else
        match blockMapIdx s nn with
        | some j => chainRoot s fuel j (nn :: members)
        | none => current

/-- The forward breadth-first collection of `_group_neighbors`: pop a name,
skip it if already used or unknown, otherwise add its block to the group,
mark it used, and enqueue the names that depend on it.  Each step strictly
decreases `to_process.length` plus the weight of the not-yet-used names, so
`bfsFuel` below can never run out before `to_process` empties. -/
def bfsCollect (s : Store) : Nat → List String → List String → List Nat × List String
  | 0, _, used => ([], used)
  | fuel + 1, to_process, used =>
    match to_process with
    | [] => ([], used)
    | n :: rest =>
      if n ∈ used then bfsCollect s fuel rest used
      else
        match blockMapIdx s n with
        | none => bfsCollect s fuel rest used
        | some j =>
          let r := bfsCollect s fuel (rest ++ dependedBy s n) (n :: used)
          (j :: r.1, r.2)

/-- Fuel that dominates the potential of `bfsCollect` for any start state. -/
def bfsFuel (s : Store) : Nat := (s.length + 1) * (s.length + 1)

/-- The outer loop of `_group_neighbors` over the blocks in order. -/
def groupsAux (s : Store) : List Nat → List String → List (List Nat)
  | [], _ => []
  | i :: rest, used =>
    if nameOf s i ∈ used then groupsAux s rest used
    else
      let root := chainRoot s (s.length + 1) i [nameOf s i]
      let r := bfsCollect s (bfsFuel s) [nameOf s root] used
      if r.1.isEmpty then groupsAux s rest r.2
      else r.1 :: groupsAux s rest r.2

/-- `_group_neighbors`: group the blocks (as store indices) into the
connected chains of the `neighbor` relation. -/
def group_neighbors (s : Store) : List (List Nat) :=
  groupsAux s (List.range s.length) []

/-- The group-local dict `{b.name: b for b in group}` of `_place_group_at`,
over indices (later group members overwrite earlier ones). -/
def groupMapIdx (s : Store) (g : List Nat) (n : String) : Option Nat :=
  g.foldl (fun acc i => if nameOf s i == n then some i else acc) none

/-- The group-local dict `depends_on` of `_place_group_at` (only block
entries whose truthy neighbor is itself in the group map). -/
def groupDependsOn (s : Store) (g : List Nat) (n : String) : Option String :=
  ((g.map (s.getB ·)).filter (fun b =>
      truthyStr b.neighbor && (groupMapIdx s g (strVal b.neighbor)).isSome &&
      b.name == n)).getLast?.map (fun b => strVal b.neighbor)

/-- One attempt of the inner `for block in list(remaining)` body of
`_place_group_at`: place `i` next to its already placed neighbor (right of
it, or below it when the right position overlaps a placed group member). -/
def pgTryPlace (g : List Nat)
    (st : Store × FloorPlan × List String × List Nat × Bool) (i : Nat) :
    Store × FloorPlan × List String × List Nat × Bool :=
  let (s, fp, placed, remaining, pa) := st
  let b := s.getB i
  if truthyStr b.neighbor && placed.contains (strVal b.neighbor) &&
      (groupMapIdx s g (strVal b.neighbor)).isSome then
    match groupMapIdx s g (strVal b.neighbor) with
    | none => (s, fp, placed, remaining, pa)
    | some nj =>
      let nb := s.getB nj
      let s1 := s.setB i { b with x := nb.x + nb.width, y := nb.y }
      let ovl := placed.any (fun pn =>
        match groupMapIdx s1 g pn with
        | some pj => (s1.getB i).overlaps (s1.getB pj)
        | none => false)
      let s2 :=
        if ovl then
          let nb2 := s1.getB nj
          s1.setB i { s1.getB i with x := nb2.x, y := nb2.y + nb2.height }
        else s1
      (s2, fp.add_block i, b.name :: placed, remaining.erase i, true)
  else (s, fp, placed, remaining, pa)

/-- One pass of `_place_group_at` over the snapshot `list(remaining)`. -/
def placeGroupPass (g : List Nat) :
    List Nat → (Store × FloorPlan × List String × List Nat × Bool) →
    Store × FloorPlan × List String × List Nat × Bool
  | [], st => st
  | i :: snap, st => placeGroupPass g snap (pgTryPlace g st i)

/-- The `if not placed_any` fallback of `_place_group_at`: drop every block
still unplaced at the anchor verbatim. -/
def placeAllAt (x y : ℚ) : List Nat → Store → FloorPlan → Store × FloorPlan
  | [], s, fp => (s, fp)
  | i :: rest, s, fp =>
    placeAllAt x y rest (s.setB i { s.getB i with x := x, y := y }) (fp.add_block i)

/-- The `while remaining and iteration < max_iterations` loop of
`_place_group_at` (the fuel is the loop's own `max_iterations` bound). -/
def placeGroupLoop (g : List Nat) (x y : ℚ) :
    Nat → Store → FloorPlan → List String → List Nat → Store × FloorPlan
  | 0, s, fp, _, _ => (s, fp)
  | fuel + 1, s, fp, placed, remaining =>
    if remaining.isEmpty then (s, fp)
    else
      let st := placeGroupPass g remaining (s, fp, placed, remaining, false)
      let (s1, fp1, placed1, remaining1, pa) := st
      if pa then placeGroupLoop g x y fuel s1 fp1 placed1 remaining1
      else placeAllAt x y remaining1 s1 fp1

/-- `_place_group_at`: place a group of blocks at an anchor position,
respecting in-group neighbor chains. -/
def place_group_at (g : List Nat) (x y : ℚ) (s : Store) (fp : FloorPlan) :
    Store × FloorPlan :=
  match g with
  | [] => (s, fp)
  | [i] => (s.setB i { s.getB i with x := x, y := y }, fp.add_block i)
  | _ =>
    let roots := g.filter (fun i =>
      match groupDependsOn s g (nameOf s i) with
      | none => true
      | some nn => (groupMapIdx s g nn).isNone)
    let root := match roots with | [] => g.headD 0 | r :: _ => r
    let s1 := s.setB root { s.getB root with x := x, y := y }
    let fp1 := fp.add_block root
    let placed := [nameOf s1 root]
    let remaining := g.filter (fun i => !(placed.contains (nameOf s1 i)))
    placeGroupLoop g x y (2 * g.length) s1 fp1 placed remaining

/-- `_choose_best_orientation`: squareness heuristic for a whole group. -/
def choose_best_orientation (s : Store) (g : List Nat) : String :=
  let original_aspect :=
    pySum (g.map (fun i => (s.getB i).width)) / pyMax (g.map (fun i => (s.getB i).height))
  let rotated_aspect :=
    pySum (g.map (fun i => (s.getB i).height)) / pyMax (g.map (fun i => (s.getB i).width))
  if |rotated_aspect - 1| < |original_aspect - 1| then "rotated" else "original"

/-- Width of a group as taken by the candidate searches (`sum` for a chain,
the single width otherwise). -/
def groupSearchWidth (s : Store) (g : List Nat) : ℚ :=
  if g.length > 1 then pySum (g.map (fun i => (s.getB i).width))
  else (s.getB (g.headD 0)).width

/-- Height of a group as taken by the candidate searches (`max` for a chain,
the single height otherwise). -/
def groupSearchHeight (s : Store) (g : List Nat) : ℚ :=
  if g.length > 1 then pyMax (g.map (fun i => (s.getB i).height))
  else (s.getB (g.headD 0)).height

/-- Overlap test of the candidate searches: would a `gw × gh` rectangle at
`(x, y)` overlap the block at index `j`. -/
def candOverlaps (s : Store) (x y gw gh : ℚ) (j : Nat) : Bool :=
  let b := s.getB j
  !(decide (x + gw ≤ b.x) || decide (b.x + b.width ≤ x) ||
    decide (y + gh ≤ b.y) || decide (b.y + b.height ≤ y))

/-- The candidate fold of `_find_best_from_candidates` (clamping each
candidate to nonnegative coordinates). -/
def fbcFold (s : Store) (fp : FloorPlan) (gw gh : ℚ) :
    List (ℚ × ℚ) → (ℚ × ℚ) → Option ℚ → ℚ × ℚ
  | [], best_pos, _ => best_pos
  | pos :: rest, best_pos, best_area =>
    let x := max 0 pos.1
    let y := max 0 pos.2
    if fp.blocks.any (candOverlaps s x y gw gh) then fbcFold s fp gw gh rest best_pos best_area
    else
      let area := max fp.bounding_width (x + gw) * max fp.bounding_height (y + gh)
      if ltOpt area best_area then fbcFold s fp gw gh rest (x, y) (some area)
      else fbcFold s fp gw gh rest best_pos best_area

/-- `_find_best_from_candidates`. -/
def find_best_from_candidates (s : Store) (fp : FloorPlan)
    (candidates : List (ℚ × ℚ)) (gw gh : ℚ) : ℚ × ℚ :=
  fbcFold s fp gw gh candidates (candidates.headD (0, 0)) none

/-- `_find_quadrant_position` (also returns the floorplan because it calls
`update_bounding_box` on it). -/
def find_quadrant_position (s : Store) (fp : FloorPlan) (g : List Nat)
    (quadrant : String) : FloorPlan × (ℚ × ℚ) :=
  if fp.blocks.isEmpty then (fp, (0, 0))
  else
    let fp1 := fp.update_bounding_box s
    let gw := groupSearchWidth s g
    let gh := groupSearchHeight s g
    let mid_x : ℚ := fp1.bounding_width / 2
    let mid_y : ℚ := fp1.bounding_height / 2
    let grid : List ℤ → List ℤ → List (ℚ × ℚ) := fun xs ys =>
      (xs.map (fun xv => ys.map (fun yv => ((xv : ℚ), (yv : ℚ))))).flatten
    let candidates :=
      if quadrant == "top-left-quad" then
        grid (pyRange 0 (pyInt mid_x) 10) (pyRange 0 (pyInt mid_y) 10)
      else if quadrant == "top-right-quad" then
        grid (pyRange (pyInt mid_x) (pyInt fp1.bounding_width) 10) (pyRange 0 (pyInt mid_y) 10)
      else if quadrant == "bottom-left-quad" then
        grid (pyRange 0 (pyInt mid_x) 10) (pyRange (pyInt mid_y) (pyInt fp1.bounding_height) 10)
      else
        grid (pyRange (pyInt mid_x) (pyInt fp1.bounding_width) 10)
             (pyRange (pyInt mid_y) (pyInt fp1.bounding_height) 10)
    (fp1, find_best_from_candidates s fp1 (candidates ++ [(0, 0)]) gw gh)

/-- `_find_center_position` (also returns the floorplan because it calls
`update_bounding_box` on it). -/
def find_center_position (s : Store) (fp : FloorPlan) (g : List Nat) :
    FloorPlan × (ℚ × ℚ) :=
  if fp.blocks.isEmpty then (fp, (0, 0))
  else
    let fp1 := fp.update_bounding_box s
    let gw := groupSearchWidth s g
    let gh := groupSearchHeight s g
    let mid_x : ℚ := fp1.bounding_width / 2
    let mid_y : ℚ := fp1.bounding_height / 2
    let candidates : List (ℚ × ℚ) :=
      [(mid_x - gw / 2, mid_y - gh / 2), (mid_x, mid_y),
       (mid_x - gw, mid_y), (mid_x, mid_y - gh), (0, 0)]
    (fp1, find_best_from_candidates s fp1 candidates gw gh)

/-- The candidate fold of `_find_best_position` (no clamping here). -/
def fbpFold (s : Store) (fp : FloorPlan) (gw gh : ℚ) :
    List (ℚ × ℚ) → (ℚ × ℚ) → Option ℚ → ℚ × ℚ
  | [], best_pos, _ => best_pos
  | pos :: rest, best_pos, best_area =>
    if fp.blocks.any (candOverlaps s pos.1 pos.2 gw gh) then
      fbpFold s fp gw gh rest best_pos best_area
    else
      let area := max fp.bounding_width (pos.1 + gw) * max fp.bounding_height (pos.2 + gh)
      if ltOpt area best_area then fbpFold s fp gw gh rest pos (some area)
      else fbpFold s fp gw gh rest best_pos best_area

/-- `_find_best_position` (also returns the floorplan because it calls
`update_bounding_box` on it). -/
def find_best_position (s : Store) (fp : FloorPlan) (g : List Nat) :
    FloorPlan × (ℚ × ℚ) :=
  if fp.blocks.isEmpty then (fp, (0, 0))
  else
    let fp1 := fp.update_bounding_box s
    let candidates :=
      [((0 : ℚ), (0 : ℚ)), (fp1.bounding_width, 0), (0, fp1.bounding_height)] ++
      (fp1.blocks.map (fun j =>
        let b := s.getB j
        [(b.x + b.width, b.y), (b.x, b.y + b.height)])).flatten
    let gw := groupSearchWidth s g
    let gh := groupSearchHeight s g
    (fp1, fbpFold s fp1 gw gh candidates (candidates.headD (0, 0)) none)

/-- Normalization of legacy location names (`'top-left'` and friends). -/
def normalizePref (pref : String) : String :=
  if pref == "top-left" then "top-left-corner"
  else if pref == "top-right" then "top-right-corner"
  else if pref == "bottom-left" then "bottom-left-corner"
  else if pref == "bottom-right" then "bottom-right-corner"
  else pref

/-- The ten keys of the `location_prefs` dict of `_place_corners_first`. -/
def validPrefKeys : List String :=
  ["top-left-corner", "top-left-quad", "top-right-corner", "top-right-quad",
   "bottom-left-corner", "bottom-left-quad", "bottom-right-corner",
   "bottom-right-quad", "center", dontCare]

/-- Normalized preference of a group (taken from its first member). -/
def groupPref (s : Store) (g : List Nat) : String :=
  normalizePref ((s.getB (g.headD 0)).preferred_location)

/-- The bucket of `location_prefs` for key `k` (order preserved). -/
def bucketOf (s : Store) (gs : List (List Nat)) (k : String) : List (List Nat) :=
  gs.filter (fun g => groupPref s g == k)

/-- The `"don't care"` bucket also receives every group whose preference is
not one of the ten keys. -/
def bucketDontCare (s : Store) (gs : List (List Nat)) : List (List Nat) :=
  gs.filter (fun g => !(validPrefKeys.contains (groupPref s g)) || groupPref s g == dontCare)

/-- The top-left-corner placement fold of `_place_corners_first` (stack the
groups downward from the origin). -/
def placeTLC (gs : List (List Nat)) (s : Store) (fp : FloorPlan) (cy : ℚ) :
    Store × FloorPlan :=
  match gs with
  | [] => (s, fp)
  | g :: rest =>
    let (s1, fp1) := place_group_at g 0 cy s fp
    placeTLC rest s1 fp1 (cy + pyMax (g.map (fun i => (s1.getB i).height)))

/-- The top-right-corner provisional placement fold (same stacking; each
group is adjusted to the right edge later). -/
def placeTRC (gs : List (List Nat)) (s : Store) (fp : FloorPlan) (cy : ℚ) :
    Store × FloorPlan :=
  match gs with
  | [] => (s, fp)
  | g :: rest =>
    let (s1, fp1) := place_group_at g 0 cy s fp
    placeTRC rest s1 fp1 (cy + pyMax (g.map (fun i => (s1.getB i).height)))

/-- The bottom-left-corner provisional placement fold (stack rightward). -/
def placeBLC (gs : List (List Nat)) (s : Store) (fp : FloorPlan) (cx : ℚ) :
    Store × FloorPlan :=
  match gs with
  | [] => (s, fp)
  | g :: rest =>
    let (s1, fp1) := place_group_at g cx 0 s fp
    placeBLC rest s1 fp1 (cx + pyMax (g.map (fun i => (s1.getB i).width)))

/-- The bottom-right-corner provisional placement fold (all at the origin). -/
def placeBRC (gs : List (List Nat)) (s : Store) (fp : FloorPlan) :
    Store × FloorPlan :=
  match gs with
  | [] => (s, fp)
  | g :: rest =>
    let (s1, fp1) := place_group_at g 0 0 s fp
    placeBRC rest s1 fp1

/-- Quadrant placement fold of `_place_corners_first`. -/
def placeQuadList (quadrant : String) (gs : List (List Nat)) (s : Store)
    (fp : FloorPlan) : Store × FloorPlan :=
  match gs with
  | [] => (s, fp)
  | g :: rest =>
    let (fp1, pos) := find_quadrant_position s fp g quadrant
    let (s1, fp2) := place_group_at g pos.1 pos.2 s fp1
    placeQuadList quadrant rest s1 fp2

/-- Center placement fold of `_place_corners_first`. -/
def placeCenterList (gs : List (List Nat)) (s : Store) (fp : FloorPlan) :
    Store × FloorPlan :=
  match gs with
  | [] => (s, fp)
  | g :: rest =>
    let (fp1, pos) := find_center_position s fp g
    let (s1, fp2) := place_group_at g pos.1 pos.2 s fp1
    placeCenterList rest s1 fp2

/-- Best-position placement fold of `_place_corners_first` for the
`"don't care"` bucket. -/
def placeDontCareList (gs : List (List Nat)) (s : Store) (fp : FloorPlan) :
    Store × FloorPlan :=
  match gs with
  | [] => (s, fp)
  | g :: rest =>
    let (fp1, pos) := find_best_position s fp g
    let (s1, fp2) := place_group_at g pos.1 pos.2 s fp1
    placeDontCareList rest s1 fp2

/-- Right-edge adjustment of the provisionally placed top-right-corner
groups (`block.x = bounding_width - max_width + (block.x - 0)`). -/
def adjustTRC (bw : ℚ) (gs : List (List Nat)) (s : Store) : Store :=
  match gs with
  | [] => s
  | g :: rest =>
    let mw := pyMax (g.map (fun i => (s.getB i).width))
    let s1 := g.foldl (fun acc i =>
      Store.setB acc i { acc.getB i with x := bw - mw + ((acc.getB i).x - 0) }) s
    adjustTRC bw rest s1

/-- Bottom-edge adjustment of the provisionally placed bottom-left-corner
groups. -/
def adjustBLC (bh : ℚ) (gs : List (List Nat)) (s : Store) : Store :=
  match gs with
  | [] => s
  | g :: rest =>
    let mh := pyMax (g.map (fun i => (s.getB i).height))
    let s1 := g.foldl (fun acc i =>
      Store.setB acc i { acc.getB i with y := bh - mh + ((acc.getB i).y - 0) }) s
    adjustBLC bh rest s1

/-- Corner adjustment of the provisionally placed bottom-right-corner
groups (both coordinates). -/
def adjustBRC (bw bh : ℚ) (gs : List (List Nat)) (s : Store) : Store :=
  match gs with
  | [] => s
  | g :: rest =>
    let mw := pyMax (g.map (fun i => (s.getB i).width))
    let mh := pyMax (g.map (fun i => (s.getB i).height))
    let s1 := g.foldl (fun acc i =>
      Store.setB acc i { acc.getB i with
        x := bw - mw + ((acc.getB i).x - 0),
        y := bh - mh + ((acc.getB i).y - 0) }) s
    adjustBRC bw bh rest s1

/-- `_place_corners_first`: bucket the groups by normalized location
preference, place exact corners first, then quadrants, center and
`"don't care"` groups, and finally back-solve the right/bottom corner
coordinates from the bounding box. -/
def place_corners_first (s : Store) (fp : FloorPlan)
    (neighbor_groups : List (List Nat)) : Store × FloorPlan :=
  let tlcB := bucketOf s neighbor_groups "top-left-corner"
  let trcB := bucketOf s neighbor_groups "top-right-corner"
  let blcB := bucketOf s neighbor_groups "bottom-left-corner"
  let brcB := bucketOf s neighbor_groups "bottom-right-corner"
  let (s1, fp1) := placeTLC tlcB s fp 0
  let (s2, fp2) := placeTRC trcB s1 fp1 0
  let (s3, fp3) := placeBLC blcB s2 fp2 0
  let (s4, fp4) := placeBRC brcB s3 fp3
  let (s5, fp5) := placeQuadList "top-left-quad" (bucketOf s neighbor_groups "top-left-quad") s4 fp4
  let (s6, fp6) := placeQuadList "top-right-quad" (bucketOf s neighbor_groups "top-right-quad") s5 fp5
  let (s7, fp7) := placeQuadList "bottom-left-quad" (bucketOf s neighbor_groups "bottom-left-quad") s6 fp6
  let (s8, fp8) := placeQuadList "bottom-right-quad" (bucketOf s neighbor_groups "bottom-right-quad") s7 fp7
  let (s9, fp9) := placeCenterList (bucketOf s neighbor_groups "center") s8 fp8
  let (s10, fp10) := placeDontCareList (bucketDontCare s neighbor_groups) s9 fp9
  let fp11 := fp10.update_bounding_box s10
  let s11 := adjustTRC fp11.bounding_width trcB s10
  let s12 := adjustBLC fp11.bounding_height blcB s11
  let s13 := adjustBRC fp11.bounding_width fp11.bounding_height brcB s12
  (s13, fp11)

/-- The group fold of `_place_row_based`. -/
def placeRowFold (gs : List (List Nat)) (s : Store) (fp : FloorPlan)
    (cx cy rh mw : ℚ) : Store × FloorPlan :=
  match gs with
  | [] => (s, fp)
  | g :: rest =>
    let s0 := if choose_best_orientation s g == "rotated" then
        g.foldl (fun acc i => Store.setB acc i ((acc.getB i).rotate)) s
      else s
    let gw := pySum (g.map (fun i => (s0.getB i).width))
    let gh := pyMax (g.map (fun i => (s0.getB i).height))
    let newRow := decide (0 < cx) && decide (mw + gw * 2 < cx + gw)
    let cx1 := if newRow then 0 else cx
    let cy1 := if newRow then cy + rh else cy
    let rh1 := if newRow then 0 else rh
    let (s1, fp1) := place_group_at g cx1 cy1 s0 fp
    placeRowFold rest s1 fp1 (cx1 + gw) cy1 (max rh1 gh) (max mw (cx1 + gw))

/-- `_place_row_based`. -/
def place_row_based (s : Store) (fp : FloorPlan) (gs : List (List Nat)) :
    Store × FloorPlan :=
  placeRowFold gs s fp 0 0 0 0

/-- The group fold of `_place_column_based`. -/
def placeColFold (gs : List (List Nat)) (s : Store) (fp : FloorPlan)
    (cx cy cw mh : ℚ) : Store × FloorPlan :=
  match gs with
  | [] => (s, fp)
  | g :: rest =>
    let s0 := if choose_best_orientation s g == "rotated" then
        g.foldl (fun acc i => Store.setB acc i ((acc.getB i).rotate)) s
      else s
    let gw := pyMax (g.map (fun i => (s0.getB i).width))
    let gh := pySum (g.map (fun i => (s0.getB i).height))
    let newCol := decide (0 < cy) && decide (mh + gh * 2 < cy + gh)
    let cy1 := if newCol then 0 else cy
    let cx1 := if newCol then cx + cw else cx
    let cw1 := if newCol then 0 else cw
    let (s1, fp1) := place_group_at g cx1 cy1 s0 fp
    placeColFold rest s1 fp1 cx1 (cy1 + gh) (max cw1 gw) (max mh (cy1 + gh))

/-- `_place_column_based`. -/
def place_column_based (s : Store) (fp : FloorPlan) (gs : List (List Nat)) :
    Store × FloorPlan :=
  placeColFold gs s fp 0 0 0 0

/-- `_place_blocks`: run one placement strategy on a fresh floorplan and
recompute the bounding box. -/
def place_blocks (s : Store) (gs : List (List Nat)) (strategy : String) :
    Store × FloorPlan :=
  let r :=
    if strategy == "corners_first" then place_corners_first s FloorPlan.empty gs
    else if strategy == "row_based" then place_row_based s FloorPlan.empty gs
    else place_column_based s FloorPlan.empty gs
  (r.1, r.2.update_bounding_box r.1)

/-- `_violates_location_constraint` (returns the floorplan too: the Python
function calls `update_bounding_box` on it, except on the early
`"don't care"` return). -/
def violates_location_constraint (s : Store) (fp : FloorPlan) (i : Nat) :
    FloorPlan × Bool :=
  let b := s.getB i
  let pref := b.preferred_location
  if pref == dontCare then (fp, false)
  else
    let fp1 := fp.update_bounding_box s
    let mid_x := fp1.bounding_width / 2
    let mid_y := fp1.bounding_height / 2
    let cx := b.x + b.width / 2
    let cy := b.y + b.height / 2
    if pref == "top-left-quad" then (fp1, decide (mid_x < cx) || decide (mid_y < cy))
    else if pref == "top-right-quad" then (fp1, decide (cx < mid_x) || decide (mid_y < cy))
    else if pref == "bottom-left-quad" then (fp1, decide (mid_x < cx) || decide (cy < mid_y))
    else if pref == "bottom-right-quad" then (fp1, decide (cx < mid_x) || decide (cy < mid_y))
    else (fp1, false)

/-- The short-circuit test
`floorplan.has_overlaps() or _violates_location_constraint(block, floorplan)`
(the second call, which updates the bounding box, only runs when the first
is false). -/
def overlapOrViolates (s : Store) (fp : FloorPlan) (i : Nat) : Bool × FloorPlan :=
  if fp.has_overlaps s then (true, fp)
  else
    let r := violates_location_constraint s fp i
    (r.2, r.1)

/-- The loop `while block.x > 0: block.x -= 1; ...` of `_optimize_placement`
and of the fine-tuning steps of `_compact_with_locked_corners`: decrement
until a unit step would overlap or violate a constraint, then revert that
step.  Fuel is `⌈x⌉` at the call site, which the loop can never outlive. -/
def gtLoopX : Nat → Store → FloorPlan → Nat → Bool → Store × FloorPlan × Bool
  | 0, s, fp, _, imp => (s, fp, imp)
  | fuel + 1, s, fp, i, imp =>
    let b := s.getB i
    if 0 < b.x then
      let s1 := s.setB i { b with x := b.x - 1 }
      let r := overlapOrViolates s1 fp i
      if r.1 then (s, r.2, imp)
      else gtLoopX fuel s1 r.2 i true
    else (s, fp, imp)

/-- Vertical analogue of `gtLoopX`. -/
def gtLoopY : Nat → Store → FloorPlan → Nat → Bool → Store × FloorPlan × Bool
  | 0, s, fp, _, imp => (s, fp, imp)
  | fuel + 1, s, fp, i, imp =>
    let b := s.getB i
    if 0 < b.y then
      let s1 := s.setB i { b with y := b.y - 1 }
      let r := overlapOrViolates s1 fp i
      if r.1 then (s, r.2, imp)
      else gtLoopY fuel s1 r.2 i true
    else (s, fp, imp)

/-- The loop `while block.x >= step: block.x -= step; ...` of
`_compact_with_locked_corners`.  Fuel is `⌈x / step⌉` at the call site. -/
def geLoopX (step : ℚ) : Nat → Store → FloorPlan → Nat → Bool → Store × FloorPlan × Bool
  | 0, s, fp, _, imp => (s, fp, imp)
  | fuel + 1, s, fp, i, imp =>
    let b := s.getB i
    if step ≤ b.x then
      let s1 := s.setB i { b with x := b.x - step }
      let r := overlapOrViolates s1 fp i
      if r.1 then (s, r.2, imp)
      else geLoopX step fuel s1 r.2 i true
    else (s, fp, imp)

/-- Vertical analogue of `geLoopX`. -/
def geLoopY (step : ℚ) : Nat → Store → FloorPlan → Nat → Bool → Store × FloorPlan × Bool
  | 0, s, fp, _, imp => (s, fp, imp)
  | fuel + 1, s, fp, i, imp =>
    let b := s.getB i
    if step ≤ b.y then
      let s1 := s.setB i { b with y := b.y - step }
      let r := overlapOrViolates s1 fp i
      if r.1 then (s, r.2, imp)
      else geLoopY step fuel s1 r.2 i true
    else (s, fp, imp)

/-- The per-block body of `_optimize_placement` (skip blocks under a strict
location constraint, then shift left and up one unit at a time). -/
def optBlockStep (st : Store × FloorPlan × Bool) (i : Nat) :
    Store × FloorPlan × Bool :=
  let (s, fp, imp) := st
  if (["top-left-corner", "top-right-corner", "bottom-left-corner",
       "bottom-right-corner", "center"] : List String).contains
      (s.getB i).preferred_location then st
  else
    let r1 := gtLoopX (⌈(s.getB i).x⌉.toNat) s fp i imp
    gtLoopY (⌈(r1.1.getB i).y⌉.toNat) r1.1 r1.2.1 i r1.2.2

/-- One pass of `_optimize_placement` over the floorplan blocks. -/
def optPass : List Nat → Store × FloorPlan × Bool → Store × FloorPlan × Bool
  | [], st => st
  | i :: rest, st => optPass rest (optBlockStep st i)

/-- The `for _ in range(max_iterations)` loop of `_optimize_placement`,
stopping early when a pass makes no progress. -/
def optLoop : Nat → Store → FloorPlan → Store × FloorPlan
  | 0, s, fp => (s, fp)
  | n + 1, s, fp =>
    let r := optPass fp.blocks (s, fp, false)
    if r.2.2 then optLoop n r.1 r.2.1 else (r.1, r.2.1)

/-- `_optimize_placement`: compact blocks toward the origin without
introducing overlaps or location violations. -/
def optimize_placement (s : Store) (fp : FloorPlan) : Store × FloorPlan :=
  if fp.blocks.isEmpty then (s, fp)
  else
    let r := optLoop 10 s fp
    (r.1, r.2.update_bounding_box r.1)

/-- The per-block contribution of `_calculate_location_penalty`. -/
def locPenaltyBlock (s : Store) (fp1 : FloorPlan) (mid_x mid_y : ℚ) (i : Nat) : ℚ :=
  let b := s.getB i
  if b.preferred_location == dontCare then 0
  else
    let pref := normalizePref b.preferred_location
    let cx := b.x + b.width / 2
    let cy := b.y + b.height / 2
    let tol : ℚ := 2
    if pref == "top-left-corner" then
      if tol < b.x ∨ tol < b.y then 1 else 0
    else if pref == "top-right-corner" then
      let ex := fp1.bounding_width - b.width
      if tol < |b.x - ex| ∨ tol < b.y then 1 else 0
    else if pref == "bottom-left-corner" then
      let ey := fp1.bounding_height - b.height
      if tol < b.x ∨ tol < |b.y - ey| then 1 else 0
    else if pref == "bottom-right-corner" then
      let ex := fp1.bounding_width - b.width
      let ey := fp1.bounding_height - b.height
      if tol < |b.x - ex| ∨ tol < |b.y - ey| then 1 else 0
    else if pref == "top-left-quad" then
      if mid_x < cx ∨ mid_y < cy then 1/2 else 0
    else if pref == "top-right-quad" then
      if cx < mid_x ∨ mid_y < cy then 1/2 else 0
    else if pref == "bottom-left-quad" then
      if mid_x < cx ∨ cy < mid_y then 1/2 else 0
    else if pref == "bottom-right-quad" then
      if cx < mid_x ∨ cy < mid_y then 1/2 else 0
    else if pref == "center" then
      let dist := |cx - mid_x| + |cy - mid_y|
      let max_dist := (fp1.bounding_width + fp1.bounding_height) / 4
      if max_dist * (6/10) < dist then 1/2 else 0
    else 0

/-- `_calculate_location_penalty` (returns the floorplan too, because it
calls `update_bounding_box`). -/
def calculate_location_penalty (s : Store) (fp : FloorPlan) : FloorPlan × ℚ :=
  if fp.blocks.isEmpty then (fp, 0)
  else
    let fp1 := fp.update_bounding_box s
    let mid_x := fp1.bounding_width / 2
    let mid_y := fp1.bounding_height / 2
    (fp1, (fp1.blocks.map (locPenaltyBlock s fp1 mid_x mid_y)).foldl (· + ·) 0)

/-- `_calculate_neighbor_penalty`: one unit per block whose truthy neighbor
reference is missing from the floorplan or not abutting it. -/
def calculate_neighbor_penalty (s : Store) (fp : FloorPlan) : ℚ :=
  if fp.blocks.isEmpty then 0
  else
    (fp.blocks.map (fun i =>
      let b := s.getB i
      if truthyStr b.neighbor then
        match groupMapIdx s fp.blocks (strVal b.neighbor) with
        | none => (1 : ℚ)
        | some nj => if (s.getB i).abuts (s.getB nj) then 0 else 1
      else 0)).foldl (· + ·) 0

/-- `_calculate_cost` (returns the floorplan too, because it updates the
bounding box; `none` models the `float("inf")` cost of a degenerate
layout). -/
def calculate_cost (s : Store) (fp : FloorPlan) (max_aspect : ℚ) :
    FloorPlan × Option ℚ :=
  let fp1 := fp.update_bounding_box s
  let area := fp1.get_area
  if fp1.bounding_width == 0 || fp1.bounding_height == 0 then (fp1, none)
  else
    let aspect := max (fp1.bounding_width / fp1.bounding_height)
      (fp1.bounding_height / fp1.bounding_width)
    let penalty0 :=
      if max_aspect < aspect then area * (aspect - max_aspect) * 100
      else area * (aspect - 1) * (1/2)
    let penalty1 :=
      if fp1.has_overlaps s then penalty0 + area * 100000 else penalty0
    let r := calculate_location_penalty s fp1
    let np := calculate_neighbor_penalty s r.1
    (r.1, some (area + (penalty1 + (r.2 + np) * area * 10000)))

/-- Insert-or-update into an association list modelling a Python dict
(overwriting keeps the original insertion position). -/
def assocUpsert (l : List (String × Nat)) (k : String) (v : Nat) :
    List (String × Nat) :=
  if l.any (fun p => p.1 == k) then l.map (fun p => if p.1 == k then (k, v) else p)
  else l ++ [(k, v)]

/-- Dict lookup in an association list. -/
def assocGet (l : List (String × Nat)) (k : String) : Option Nat :=
  (l.find? (fun p => p.1 == k)).map (·.2)

/-- The `corner_blocks` dict of `_enforce_corner_constraints`: the last
block whose normalized preference contains the substring `"corner"`, keyed
by that preference. -/
def cornerBlocksOf (s : Store) (fp : FloorPlan) : List (String × Nat) :=
  fp.blocks.foldl (fun acc i =>
    let pref := normalizePref (s.getB i).preferred_location
    if containsCorner pref then assocUpsert acc pref i else acc) []

/-- Python `==` between a `str` and a Block object: `str.__eq__` returns
`NotImplemented`, `Block` has no `__eq__`, so the comparison falls back to
object identity of values of different types and is always `False`.  The
source tests `block.preferred_location in corner_blocks.values()` with this
semantics. -/
def pyStrEqBlock (_ : String) (_ : Nat) : Bool := false

/-- Membership `pref in corner_blocks.values()` from the source: a string
compared against block objects, hence always false. -/
def strInBlockValues (pref : String) (vals : List Nat) : Bool :=
  vals.any (pyStrEqBlock pref)

/-- Add a block to the `overlapping_blocks` set (first insertion order). -/
def addIfAbsent (l : List Nat) (i : Nat) : List Nat :=
  if l.contains i then l else l ++ [i]

/-- Collect the `overlapping_blocks` set of `_enforce_corner_constraints`:
for every overlapping pair, each member passes the (vacuous) non-corner
test and is added. -/
def collectOverlapping (s : Store) (cvals : List Nat) :
    List Nat → List Nat → List Nat
  | [], acc => acc
  | i :: rest, acc =>
    let acc1 := rest.foldl (fun a j =>
      if (s.getB i).overlaps (s.getB j) then
        let a1 := if !(strInBlockValues (s.getB i).preferred_location cvals)
          then addIfAbsent a i else a
        if !(strInBlockValues (s.getB j).preferred_location cvals)
          then addIfAbsent a1 j else a1
      else a) acc
    collectOverlapping s cvals rest acc1

/-- Number of floorplan blocks other than `i` that a probe of block `i` at
`(bx, py)` would overlap. -/
def overlapCountAt (s : Store) (fpBlocks : List Nat) (i : Nat) (bx py : ℚ) : Nat :=
  let cand := { s.getB i with x := bx, y := py }
  (fpBlocks.filter (fun j => !(j == i) && cand.overlaps (s.getB j))).length

/-- Inner `for test_y` scan of the overlap-resolution grid: returns the best
position, the best overlap count, the `moved_any` flag and whether the scan
broke on a zero-count position.  On a zero count the best count is left
unchanged, exactly as in the source. -/
def rsYScan (s : Store) (fpb : List Nat) (i : Nat) (tx : ℚ) :
    List ℚ → Option (ℚ × ℚ) → Option Nat → Bool →
    Option (ℚ × ℚ) × Option Nat × Bool
  | [], bp, bc, moved => (bp, bc, moved)
  | ty :: rest, bp, bc, moved =>
    let c := overlapCountAt s fpb i tx ty
    if c == 0 then (some (tx, ty), bc, true)
    else if ltOptNat c bc then rsYScan s fpb i tx rest (some (tx, ty)) (some c) moved
    else rsYScan s fpb i tx rest bp bc moved

/-- Outer `for test_x` scan of the overlap-resolution grid, with the
source's early-exit test `if best_pos and best_overlap_count == 0`. -/
def rsXScan (s : Store) (fpb : List Nat) (i : Nat) (ys : List ℚ) :
    List ℚ → Option (ℚ × ℚ) → Option Nat → Bool → Option (ℚ × ℚ) × Bool
  | [], bp, _, moved => (bp, moved)
  | tx :: rest, bp, bc, moved =>
    let r := rsYScan s fpb i tx ys bp bc moved
    let (bp1, bc1, moved1) := r
    if bp1.isSome && bc1 == some 0 then (bp1, moved1)
    else rsXScan s fpb i ys rest bp1 bc1 moved1

/-- Relocation of one block of the `overlapping_blocks` set: scan the coarse
grid and move the block to the best position found (its original position
when no candidate was recorded). -/
def rsProcessBlock (fp : FloorPlan) (cvals : List Nat) (st : Store × Bool)
    (i : Nat) : Store × Bool :=
  let (s, moved) := st
  if strInBlockValues (s.getB i).preferred_location cvals then (s, moved)
  else
    let xs := (pyRange 0 (pyInt fp.bounding_width + 100) 50).map (fun z => (z : ℚ))
    let ys := (pyRange 0 (pyInt fp.bounding_height + 100) 50).map (fun z => (z : ℚ))
    let r := rsXScan s fp.blocks i ys xs none none moved
    match r.1 with
    | some p => (s.setB i { s.getB i with x := p.1, y := p.2 }, r.2)
    | none => (s, r.2)

/-- The overlap-resolution step of `_enforce_corner_constraints` (the body
of `if floorplan.has_overlaps():` inside the snapping loop). -/
def resolveSnapOverlaps (s : Store) (fp : FloorPlan) (cvals : List Nat)
    (moved : Bool) : Store × Bool :=
  let obs := collectOverlapping s cvals fp.blocks []
  obs.foldl (rsProcessBlock fp cvals) (s, moved)

/-- Snap the top-left-corner block to `(0, 0)`. -/
def snapTLC (cb : List (String × Nat)) (s : Store) (moved : Bool) : Store × Bool :=
  match assocGet cb "top-left-corner" with
  | none => (s, moved)
  | some i =>
    let b := s.getB i
    if !(b.x == 0) || !(b.y == 0) then (s.setB i { b with x := 0, y := 0 }, true)
    else (s, moved)

/-- Snap the top-right-corner block to the right edge (1-unit tolerance on
`x`) and to `y = 0`. -/
def snapTRC (cb : List (String × Nat)) (bw : ℚ) (s : Store) (moved : Bool) :
    Store × Bool :=
  match assocGet cb "top-right-corner" with
  | none => (s, moved)
  | some i =>
    let b := s.getB i
    let ex := bw - b.width
    let r := if 1 < |b.x - ex| then (s.setB i { b with x := ex }, true) else (s, moved)
    let b1 := r.1.getB i
    if !(b1.y == 0) then (Store.setB r.1 i { b1 with y := 0 }, true) else r

/-- Snap the bottom-left-corner block to `x = 0` and the bottom edge
(1-unit tolerance on `y`). -/
def snapBLC (cb : List (String × Nat)) (bh : ℚ) (s : Store) (moved : Bool) :
    Store × Bool :=
  match assocGet cb "bottom-left-corner" with
  | none => (s, moved)
  | some i =>
    let b := s.getB i
    let ey := bh - b.height
    let r := if !(b.x == 0) then (s.setB i { b with x := 0 }, true) else (s, moved)
    let b1 := r.1.getB i
    if 1 < |b1.y - ey| then (Store.setB r.1 i { b1 with y := ey }, true) else r

/-- Snap the bottom-right-corner block to the bottom-right corner (1-unit
tolerance on both coordinates, both set together). -/
def snapBRC (cb : List (String × Nat)) (bw bh : ℚ) (s : Store) (moved : Bool) :
    Store × Bool :=
  match assocGet cb "bottom-right-corner" with
  | none => (s, moved)
  | some i =>
    let b := s.getB i
    let ex := bw - b.width
    let ey := bh - b.height
    if 1 < |b.x - ex| ∨ 1 < |b.y - ey| then
      (s.setB i { b with x := ex, y := ey }, true)
    else (s, moved)

/-- One iteration of the snapping loop of `_enforce_corner_constraints`:
update the bounding box, snap the four corners, resolve any overlaps the
snapping introduced, and update the bounding box again. -/
def enforceIter (cb : List (String × Nat)) (s : Store) (fp : FloorPlan) :
    Store × FloorPlan × Bool :=
  let fp1 := fp.update_bounding_box s
  let r1 := snapTLC cb s false
  let r2 := snapTRC cb fp1.bounding_width r1.1 r1.2
  let r3 := snapBLC cb fp1.bounding_height r2.1 r2.2
  let r4 := snapBRC cb fp1.bounding_width fp1.bounding_height r3.1 r3.2
  let r5 := if fp1.has_overlaps r4.1 then
      resolveSnapOverlaps r4.1 fp1 (cb.map (·.2)) r4.2
    else r4
  (r5.1, fp1.update_bounding_box r5.1, r5.2)

/-- The `for iteration in range(max_iterations)` loop of
`_enforce_corner_constraints`, with its convergence break. -/
def enforceLoop (cb : List (String × Nat)) :
    Nat → Store → FloorPlan → Store × FloorPlan
  | 0, s, fp => (s, fp)
  | n + 1, s, fp =>
    let r := enforceIter cb s fp
    if !r.2.2 && !(r.2.1.has_overlaps r.1) then (r.1, r.2.1)
    else enforceLoop cb n r.1 r.2.1

/-- `_calculate_local_density`: neighbors within Euclidean distance 200
(encoded by comparing squared distances) count 1, abutting blocks count 5
more. -/
def calculate_local_density (s : Store) (fp : FloorPlan) (i : Nat) : Nat :=
  fp.blocks.foldl (fun d j =>
    if j == i then d
    else
      let b := s.getB i
      let o := s.getB j
      let dx := |b.x + b.width / 2 - (o.x + o.width / 2)|
      let dy := |b.y + b.height / 2 - (o.y + o.height / 2)|
      let d1 := if dx * dx + dy * dy < 40000 then d + 1 else d
      if b.abuts o then d1 + 5 else d1) 0

/-- The per-block body of a compaction pass: shift left then up with
decreasing step sizes, and record whether the block moved. -/
def compactBlockStep (st : Store × FloorPlan × Bool) (i : Nat) :
    Store × FloorPlan × Bool :=
  let (s, fp, imp) := st
  let ox := (s.getB i).x
  let oy := (s.getB i).y
  let rx := ([50, 10, 5, 1] : List ℚ).foldl (fun acc step =>
    geLoopX step (⌈(acc.1.getB i).x / step⌉.toNat) acc.1 acc.2.1 i acc.2.2)
    (s, fp, imp)
  let ry := ([50, 10, 5, 1] : List ℚ).foldl (fun acc step =>
    geLoopY step (⌈(acc.1.getB i).y / step⌉.toNat) acc.1 acc.2.1 i acc.2.2)
    rx
  let imp1 := if !((ry.1.getB i).x == ox) || !((ry.1.getB i).y == oy) then true
    else ry.2.2
  (ry.1, ry.2.1, imp1)

/-- The `for new_x in range(0, int(original_x), 10)` relocation attempt of
the edge-shrinking section (keep the first non-overlapping, non-violating
candidate, otherwise restore). -/
def edgeTryX (i : Nat) (ox : ℚ) :
    List ℚ → Store → FloorPlan → Bool → Store × FloorPlan × Bool
  | [], s, fp, imp => (s, fp, imp)
  | nx :: rest, s, fp, imp =>
    let s1 := s.setB i { s.getB i with x := nx }
    let r := overlapOrViolates s1 fp i
    if !r.1 then (s1, r.2, true)
    else edgeTryX i ox rest (Store.setB s1 i { s1.getB i with x := ox }) r.2 imp

/-- Vertical analogue of `edgeTryX`. -/
def edgeTryY (i : Nat) (oy : ℚ) :
    List ℚ → Store → FloorPlan → Bool → Store × FloorPlan × Bool
  | [], s, fp, imp => (s, fp, imp)
  | ny :: rest, s, fp, imp =>
    let s1 := s.setB i { s.getB i with y := ny }
    let r := overlapOrViolates s1 fp i
    if !r.1 then (s1, r.2, true)
    else edgeTryY i oy rest (Store.setB s1 i { s1.getB i with y := oy }) r.2 imp

/-- The right-edge shrinking loop over the movable blocks. -/
def edgePassX : List Nat → Store → FloorPlan → Bool → Store × FloorPlan × Bool
  | [], s, fp, imp => (s, fp, imp)
  | i :: rest, s, fp, imp =>
    let b := s.getB i
    if fp.bounding_width - 10 ≤ b.x + b.width then
      let r := edgeTryX i b.x ((pyRange 0 (pyInt b.x) 10).map (fun z => (z : ℚ))) s fp imp
      edgePassX rest r.1 r.2.1 r.2.2
    else edgePassX rest s fp imp

/-- The bottom-edge shrinking loop over the movable blocks. -/
def edgePassY : List Nat → Store → FloorPlan → Bool → Store × FloorPlan × Bool
  | [], s, fp, imp => (s, fp, imp)
  | i :: rest, s, fp, imp =>
    let b := s.getB i
    if fp.bounding_height - 10 ≤ b.y + b.height then
      let r := edgeTryY i b.y ((pyRange 0 (pyInt b.y) 10).map (fun z => (z : ℚ))) s fp imp
      edgePassY rest r.1 r.2.1 r.2.2
    else edgePassY rest s fp imp

/-- The `for pass_num in range(max_passes)` loop of
`_compact_with_locked_corners`; returns the movable-block list of the last
executed pass, which the tetris phase reuses. -/
def compactPassLoop (locked : List Nat) :
    Nat → Nat → Store → FloorPlan → List Nat → Store × FloorPlan × List Nat
  | 0, _, s, fp, mv => (s, fp, mv)
  | n + 1, pass_num, s, fp, _ =>
    let fp1 := fp.update_bounding_box s
    let movable := stableSort
      (fun a b => decide ((s.getB a).x + (s.getB a).y ≤ (s.getB b).x + (s.getB b).y))
      (fp1.blocks.filter (fun i => !(locked.contains i)))
    let r1 := movable.foldl compactBlockStep (s, fp1, false)
    let r2 :=
      if pass_num % 3 == 0 then
        let fpU := r1.2.1.update_bounding_box r1.1
        let ex := edgePassX movable r1.1 fpU r1.2.2
        edgePassY movable ex.1 ex.2.1 ex.2.2
      else r1
    if !r2.2.2 then (r2.1, r2.2.1, movable)
    else compactPassLoop locked n (pass_num + 1) r2.1 r2.2.1 movable

/-- Inner `for test_y` scan of the tetris grid (the `test_y` range is
re-evaluated from the current bounding height on every `test_x`
iteration). -/
def tetrisGridY (i : Nat) (tx : ℚ) :
    List ℚ → Store → FloorPlan → Nat → ℚ → ℚ → Store × FloorPlan × Nat × ℚ × ℚ
  | [], s, fp, bd, bx, py => (s, fp, bd, bx, py)
  | ty :: rest, s, fp, bd, bx, py =>
    let s1 := s.setB i { s.getB i with x := tx, y := ty }
    let r := overlapOrViolates s1 fp i
    if !r.1 then
      let d := calculate_local_density s1 r.2 i
      if bd < d || (d == bd && decide (tx + ty < bx + py)) then
        tetrisGridY i tx rest s1 r.2 d tx ty
      else tetrisGridY i tx rest s1 r.2 bd bx py
    else tetrisGridY i tx rest s1 r.2 bd bx py

/-- Outer `for test_x` scan of the tetris grid. -/
def tetrisGridX (i : Nat) :
    List ℚ → Store → FloorPlan → Nat → ℚ → ℚ → Store × FloorPlan × Nat × ℚ × ℚ
  | [], s, fp, bd, bx, py => (s, fp, bd, bx, py)
  | tx :: rest, s, fp, bd, bx, py =>
    let ys := (pyRange 0 (pyInt fp.bounding_height - pyInt ((s.getB i).height) + 1) 20).map
      (fun z => (z : ℚ))
    let r := tetrisGridY i tx ys s fp bd bx py
    tetrisGridX i rest r.1 r.2.1 r.2.2.1 r.2.2.2.1 r.2.2.2.2

/-- The per-block tetris step: search the position grid for the densest
admissible position, move there, then fine-tune with unit steps. -/
def tetrisBlock (st : Store × FloorPlan) (i : Nat) : Store × FloorPlan :=
  let (s, fp) := st
  let ox := (s.getB i).x
  let oy := (s.getB i).y
  let bd := calculate_local_density s fp i
  let xs := (pyRange 0 (pyInt fp.bounding_width - pyInt ((s.getB i).width) + 1) 20).map
    (fun z => (z : ℚ))
  let r := tetrisGridX i xs s fp bd ox oy
  let (s1, fp1, _, bx, py) := r
  let s2 := s1.setB i { s1.getB i with x := bx, y := py }
  let r1 := gtLoopX (⌈(s2.getB i).x⌉.toNat) s2 fp1 i false
  let r2 := gtLoopY (⌈(r1.1.getB i).y⌉.toNat) r1.1 r1.2.1 i false
  (r2.1, r2.2.1)

/-- `_compact_with_locked_corners`: bounded compaction passes followed by
the density-maximizing tetris pass, with the corner blocks locked. -/
def compact_with_locked_corners (s : Store) (fp : FloorPlan)
    (cb : List (String × Nat)) : Store × FloorPlan :=
  if fp.blocks.isEmpty then (s, fp)
  else
    let locked := cb.map (·.2)
    let r := compactPassLoop locked 20 0 s fp []
    let (s1, fp1, movable) := r
    let movByArea := stableSort (fun a b =>
      decide ((s1.getB b).width * (s1.getB b).height ≤ (s1.getB a).width * (s1.getB a).height))
      movable
    let r2 := movByArea.foldl tetrisBlock (s1, fp1)
    (r2.1, r2.2.update_bounding_box r2.1)

/-- `_enforce_corner_constraints`: identify the corner blocks, iteratively
snap them to their exact corners while repairing overlaps, then compact
with the corners locked.  Without any corner block the function returns
immediately. -/
def enforce_corner_constraints (s : Store) (fp : FloorPlan) : Store × FloorPlan :=
  if fp.blocks.isEmpty then (s, fp)
  else
    let cb := cornerBlocksOf s fp
    if cb.isEmpty then (s, fp)
    else
      let fp0 := fp.update_bounding_box s
      let r := enforceLoop cb 20 s fp0
      let fp2 := r.2.update_bounding_box r.1
      compact_with_locked_corners r.1 fp2 cb

/-- A stream of random draws standing for Python's global `random` state. -/
abbrev Oracle := Nat → Nat

/-- Advance the stream past `k` consumed draws. -/
def advOr (o : Oracle) (k : Nat) : Oracle := fun n => o (n + k)

/-- `random.randint(a, b)`: a draw mapped into `[a, b]`.  Python raises
`ValueError` when `b < a` (unreachable here while the bounding dimensions
are nonnegative); that case is modelled as `a`. -/
def pyRandint (a b : ℤ) (r : Nat) : ℤ :=
  if a ≤ b then a + (r : ℤ) % (b - a + 1) else a

/-- `random.sample(seq, 2)` as two distinct positions into a sequence of
length `n`: any ordered pair of distinct positions is reachable. -/
def sample2Idx (n : Nat) (r1 r2 : Nat) : Nat × Nat :=
  let i := r1 % n
  let j := r2 % (n - 1)
  (i, if j < i then j else j + 1)

/-- `random.sample(seq, k)` for index lists: draw an element from the
remaining ones, `k` times; returns the advanced stream. -/
def sampleK : Nat → Oracle → List Nat → List Nat × Oracle
  | 0, o, _ => ([], o)
  | k + 1, o, rem =>
    let idx := o 0 % rem.length
    let e := rem.getD idx 0
    let r := sampleK k (advOr o 1) (rem.eraseIdx idx)
    (e :: r.1, r.2)

/-- Swap two positions of an index list. -/
def listSwap (l : List Nat) (i j : Nat) : List Nat :=
  let vi := l.getD i 0
  let vj := l.getD j 0
  (l.set i vj).set j vi

/-- Fisher-Yates tail of `random.shuffle` (the first parameter is the
current position `i`, walking from `len - 1` down to `1`); returns the
advanced stream. -/
def shuffleAux : Nat → Oracle → List Nat → List Nat × Oracle
  | 0, o, arr => (arr, o)
  | k + 1, o, arr =>
    let j := o 0 % (k + 2)
    shuffleAux k (advOr o 1) (listSwap arr (k + 1) j)

/-- `random.shuffle` on an index list. -/
def pyShuffle (o : Oracle) (l : List Nat) : List Nat × Oracle :=
  shuffleAux (l.length - 1) o l

/-- Decode of `random.choices(['swap', 'rotate', 'move', 'repack'], ...)`:
all four weights are positive, so every operator is reachable. -/
def perturbChoice (r : Nat) : String :=
  match r % 4 with
  | 0 => "swap"
  | 1 => "rotate"
  | 2 => "move"
  | _ => "repack"

/-- The `repack` placement fold of `_generate_neighbor`: lay the shuffled
blocks out in rows, breaking when the running width passes
`target_width = (total_area * bw / max(bh, 1)) ** 0.5`; the comparison
`current_x > target_width and current_x > 0` with the square root is
encoded on squares as `(0 < cx ∧ tSq < cx ^ 2) ∧ 0 < cx`. -/
def repackFold (tSq : ℚ) : List Nat → Store → ℚ → ℚ → ℚ → Store
  | [], s, _, _, _ => s
  | i :: rest, s, cx, cy, rh =>
    let newRow := (decide (0 < cx) && decide (tSq < cx ^ 2)) && decide (0 < cx)
    let cx1 := if newRow then 0 else cx
    let cy1 := if newRow then cy + rh else cy
    let rh1 := if newRow then 0 else rh
    let b := s.getB i
    let s1 := s.setB i { b with x := cx1, y := cy1 }
    repackFold tSq rest s1 (cx1 + b.width) cy1 (max rh1 b.height)

/-- The operator part of `_generate_neighbor` (before the final
compaction), returning the advanced draw stream. -/
def generateNeighborCore (o : Oracle) (s : Store) (fp : FloorPlan) :
    Store × FloorPlan × Oracle :=
  let has_neighbor := (fp.blocks.filter (fun i => truthyStr (s.getB i).neighbor)).map (nameOf s)
  let perturbation := perturbChoice (o 0)
  if perturbation == "swap" then
    if 2 ≤ fp.blocks.length then
      let bwn := fp.blocks.filter (fun i =>
        !(has_neighbor.contains (nameOf s i)) && !(truthyStr (s.getB i).neighbor))
      let pair :=
        if 2 ≤ bwn.length then
          let p := sample2Idx bwn.length (o 1) (o 2)
          (bwn.getD p.1 0, bwn.getD p.2 0)
        else
          let p := sample2Idx fp.blocks.length (o 1) (o 2)
          (fp.blocks.getD p.1 0, fp.blocks.getD p.2 0)
      let b1 := s.getB pair.1
      let b2 := s.getB pair.2
      let s1 := (s.setB pair.1 { b1 with x := b2.x, y := b2.y }).setB pair.2
        { b2 with x := b1.x, y := b1.y }
      (s1, fp, advOr o 3)
    else (s, fp, advOr o 1)
  else if perturbation == "rotate" then
    let bwn := fp.blocks.filter (fun i => !(truthyStr (s.getB i).neighbor))
    let r :=
      if !bwn.isEmpty then
        let num := (pyRandint 1 (min 3 bwn.length) (o 1)).toNat
        sampleK num (advOr o 2) bwn
      else
        let num := (pyRandint 1 (min 3 fp.blocks.length) (o 1)).toNat
        sampleK num (advOr o 2) fp.blocks
    (r.1.foldl (fun acc i => Store.setB acc i ((acc.getB i).rotate)) s, fp, r.2)
  else if perturbation == "move" then
    let bwn := fp.blocks.filter (fun i =>
      !(truthyStr (s.getB i).neighbor) && !(has_neighbor.contains (nameOf s i)))
    let i :=
      if !bwn.isEmpty then bwn.getD (o 1 % bwn.length) 0
      else fp.blocks.getD (o 1 % fp.blocks.length) 0
    let fpU := fp.update_bounding_box s
    let max_dim := max fpU.bounding_width fpU.bounding_height
    let k := pyInt (max_dim * (1/2))
    let dx := pyRandint (-k) k (o 2)
    let dy := pyRandint (-k) k (o 3)
    let b := s.getB i
    let new_x := max 0 (b.x + (dx : ℚ))
    let new_y := max 0 (b.y + (dy : ℚ))
    let s1 := s.setB i { b with x := new_x, y := new_y }
    let s2 :=
      if truthyStr b.neighbor then
        match fp.blocks.find? (fun j => nameOf s1 j == strVal b.neighbor) with
        | some nj =>
          let nb := s1.getB nj
          let bNow := s1.getB i
          Store.setB s1 nj
            { nb with x := nb.x - (bNow.x - new_x), y := nb.y - (bNow.y - new_y) }
        | none => s1
      else s1
    (s2, fpU, advOr o 4)
  else
    let sh := pyShuffle (advOr o 1) fp.blocks
    let fp1 := { fp with blocks := sh.1 }
    let fp2 := fp1.update_bounding_box s
    let total_area := pySum (fp2.blocks.map (fun i => (s.getB i).width * (s.getB i).height))
    let tSq := total_area * fp2.bounding_width / max fp2.bounding_height 1
    (repackFold tSq fp2.blocks s 0 0 0, fp2, sh.2)

/-- `_generate_neighbor`: deep-copy the layout (a value copy here), apply a
randomly chosen perturbation, then compact. -/
def generate_neighbor (o : Oracle) (s : Store) (fp : FloorPlan) :
    Store × FloorPlan × Oracle :=
  if fp.blocks.isEmpty then (s, fp, o)
  else
    let r := generateNeighborCore o s fp
    let r2 := optimize_placement r.1 r.2.1
    (r2.1, r2.2, r.2.2)

/-- The state of the simulated-annealing driver: the current layout and its
cost, the best layout seen and its cost, and the remaining draw stream. -/
structure SAState where
  curS : Store
  curFp : FloorPlan
  curCost : Option ℚ
  bestS : Store
  bestFp : FloorPlan
  bestCost : Option ℚ
  oracle : Oracle

/-- The inner iteration block of `_simulated_annealing`: generate a
neighbor, hard-reject it if it overlaps, otherwise apply the Metropolis
rule.  `delta < 0` accepts without drawing; `delta = 0` draws but always
accepts (`random() < exp(0) = 1`); an infinite neighbor cost (or an
infinite-minus-infinite NaN delta) draws but always rejects; a finite
neighbor cost against an infinite current cost accepts without drawing. -/
def saInner (max_aspect : ℚ) : Nat → SAState → SAState
  | 0, st => st
  | k + 1, st =>
    let r := generate_neighbor st.oracle st.curS st.curFp
    let (ns, nfp, o1) := r
    if FloorPlan.has_overlaps ns nfp then
      saInner max_aspect k { st with oracle := o1 }
    else
      let cr := calculate_cost ns nfp max_aspect
      let accept : Bool × Oracle :=
        match cr.2, st.curCost with
        | some n, some c =>
          if n - c < 0 then (true, o1)
          else (decide (n - c = 0) || (o1 0 % 2 == 1), advOr o1 1)
        | some _, none => (true, o1)
        | none, _ => (false, advOr o1 1)
      if accept.1 then
        let better := ltOptOpt cr.2 st.bestCost
        saInner max_aspect k
          { curS := ns, curFp := cr.1, curCost := cr.2,
            bestS := if better then ns else st.bestS,
            bestFp := if better then cr.1 else st.bestFp,
            bestCost := if better then cr.2 else st.bestCost,
            oracle := accept.2 }
      else saInner max_aspect k { st with oracle := accept.2 }

/-- The cooling loop `while temperature > final_temp` of
`_simulated_annealing` (final temperature `0.1`, cooling factor `0.97`,
100 inner iterations per temperature).  The fuel argument is an upper bound
on the number of cooling steps; `saLoop_fuel_irrelevant` below shows that
the 400 units used by `simulated_annealing` can never run out, since
`5000 * 0.97 ^ 356 ≤ 0.1`. -/
def saLoop (max_aspect : ℚ) : Nat → ℚ → SAState → SAState
  | 0, _, st => st
  | fuel + 1, temp, st =>
    if temp ≤ 1 / 10 then st
    else saLoop max_aspect fuel (temp * (97 / 100)) (saInner max_aspect 100 st)

/-- `_simulated_annealing`: anneal from temperature 5000 and post-process
the best layout with the corner-enforcement pass. -/
def simulated_annealing (o : Oracle) (s : Store) (fp : FloorPlan)
    (max_aspect : ℚ) : Store × FloorPlan :=
  let cr := calculate_cost s fp max_aspect
  let st0 : SAState :=
    { curS := s, curFp := cr.1, curCost := cr.2,
      bestS := s, bestFp := cr.1, bestCost := cr.2, oracle := o }
  let st := saLoop max_aspect 400 5000 st0
  enforce_corner_constraints st.bestS st.bestFp

/-- `_get_initial_solution`: group the blocks, sort the groups by total
area (largest first, stable), try the three placement strategies keeping
the smallest stored bounding area, then compact the winner.  All three
strategies repeatedly reposition the same block objects, so the winning
floorplan record is combined with the store as left by the last strategy,
exactly as the aliasing in the source does. -/
def get_initial_solution (s : Store) : Store × FloorPlan :=
  let groups := group_neighbors s
  let sorted := stableSort (fun g1 g2 =>
    decide (pySum (g2.map (fun i => (s.getB i).get_area)) ≤
            pySum (g1.map (fun i => (s.getB i).get_area)))) groups
  let t1 := place_blocks s sorted "corners_first"
  let a1 : Store × Option FloorPlan × Option ℚ :=
    if ltOpt t1.2.get_area none then (t1.1, some t1.2, some t1.2.get_area)
    else (t1.1, none, none)
  let t2 := place_blocks a1.1 sorted "row_based"
  let a2 : Store × Option FloorPlan × Option ℚ :=
    if ltOpt t2.2.get_area a1.2.2 then (t2.1, some t2.2, some t2.2.get_area)
    else (t2.1, a1.2.1, a1.2.2)
  let t3 := place_blocks a2.1 sorted "column_based"
  let a3 : Store × Option FloorPlan × Option ℚ :=
    if ltOpt t3.2.get_area a2.2.2 then (t3.1, some t3.2, some t3.2.get_area)
    else (t3.1, a2.2.1, a2.2.2)
  optimize_placement a3.1 (a3.2.1.getD FloorPlan.empty)

/-- The two validation failures of `calculate_floorplan` (both raised as
`ValueError` in Python, distinguished by their messages, which name the
offending block or the rejected bound). -/
inductive FPError where
  | invalidDimension (name : String) (width height : ℚ)
  | invalidAspect (bound : ℚ)
deriving DecidableEq, Repr

/-- `calculate_floorplan`: empty input short-circuits to an empty layout;
then dimension validation (first offender wins), aspect-bound validation,
deep copy of the input blocks, initial greedy solution, and simulated
annealing. -/
def calculate_floorplan (blocks : List Block) (max_aspect : ℚ) (o : Oracle) :
    Except FPError (Store × FloorPlan) :=
  if blocks.isEmpty then .ok ([], FloorPlan.empty)
  else
    match blocks.find? (fun b => decide (b.width ≤ 0) || decide (b.height ≤ 0)) with
    | some b => .error (.invalidDimension b.name b.width b.height)
    | none =>
      if max_aspect < 1 then .error (.invalidAspect max_aspect)
      else
        let r := get_initial_solution blocks
        .ok (simulated_annealing o r.1 r.2 max_aspect)

/-- Did `calculate_floorplan` fail with the dimension validation error? -/
def isInvalidDim : Except FPError (Store × FloorPlan) → Bool
  | .error (.invalidDimension _ _ _) => true
  | _ => false

/-- Did `calculate_floorplan` fail with the aspect-bound validation error? -/
def isInvalidAspect : Except FPError (Store × FloorPlan) → Bool
  | .error (.invalidAspect _) => true
  | _ => false

/-- Does a returned layout contain an overlapping pair of blocks? -/
def resultHasOverlap : Except FPError (Store × FloorPlan) → Bool
  | .ok r => FloorPlan.has_overlaps r.1 r.2
  | .error _ => false

/-- Aspect penalty as the specification words it: `area * (aspect - bound) * 100`
when the aspect ratio exceeds the bound, the shaping term
`area * (aspect - 1) * 0.5` otherwise. -/
def aspect_penalty_spec (area aspect max_aspect : ℚ) : ℚ :=
  if max_aspect < aspect then area * (aspect - max_aspect) * 100
  else area * (aspect - 1) * (1 / 2)

/-- Overlap penalty as the specification words it: `area * 100000` when any
pair of blocks overlaps, else `0`. -/
def overlap_penalty_spec (s : Store) (fp : FloorPlan) (area : ℚ) : ℚ :=
  if fp.has_overlaps s then area * 100000 else 0

/-- The full cost formula as the specification words it, over a floorplan
whose bounding box is current:
`area + aspect_penalty + overlap_penalty + (location_penalty + neighbor_penalty) * area * 10000`. -/
def cost_spec (s : Store) (fp1 : FloorPlan) (max_aspect : ℚ) : ℚ :=
  let area := fp1.bounding_width * fp1.bounding_height
  let aspect := max (fp1.bounding_width / fp1.bounding_height)
    (fp1.bounding_height / fp1.bounding_width)
  area + aspect_penalty_spec area aspect max_aspect + overlap_penalty_spec s fp1 area +
    ((calculate_location_penalty s fp1).2 + calculate_neighbor_penalty s fp1) * area * 10000

/-- The all-zero oracle. -/
def oZero : Oracle := fun _ => 0

/-- The adversarial oracle for the no-overlap counterexample: the constant
draw 46 makes every annealing iteration choose the `move` perturbation
(`46 % 4 = 2`), pick the only unconstrained block, and draw the offset `0`
in `randint(-15, 15)` (`-15 + 46 % 31 = 0`), so the layout never changes. -/
def o46 : Oracle := fun _ => 46

/-- Failing input for the no-overlap claim: a square and two chained
neighbors of it, one wide and one tall. -/
def c1Blocks : List Block :=
  [Block.mk0 "A" 10 10 dontCare none,
   Block.mk0 "B" 10 30 dontCare (some "A"),
   Block.mk0 "C" 30 10 dontCare (some "A")]

/-- The store produced by the initial greedy solution on `c1Blocks`:
`B` is placed right of `A`, and `C` (whose right-of-`A` position overlaps
`B`) is dropped below `A` without any overlap check, overlapping `B`. -/
def c1Store : Store :=
  [Block.mk0 "A" 10 10 dontCare none,
   { Block.mk0 "B" 10 30 dontCare (some "A") with x := 10, y := 0 },
   { Block.mk0 "C" 30 10 dontCare (some "A") with x := 0, y := 10 }]

/-- The floorplan record produced by the initial greedy solution on
`c1Blocks`. -/
def c1FP : FloorPlan := { blocks := [0, 1, 2], bounding_width := 30, bounding_height := 30 }

/-- The annealing state that `simulated_annealing` keeps reaching on the
`c1Blocks` initial solution under the adversarial stream `o46`. -/
def c1SA : SAState :=
  { curS := c1Store, curFp := c1FP, curCost := some 90000900,
    bestS := c1Store, bestFp := c1FP, bestCost := some 90000900, oracle := o46 }

/-- Failing input for the corner-preservation claim: a top-left-corner
block and a free block fully overlapping it at the origin. -/
def c4Store : Store :=
  [Block.mk0 "A" 10 10 "top-left-corner" none,
   Block.mk0 "B" 10 10 dontCare none]

/-- Floorplan for the corner-preservation failing input. -/
def c4FP : FloorPlan := { blocks := [0, 1], bounding_width := 10, bounding_height := 10 }

/-- Failing input for the move-perturbation claim: two mutually declared
neighbors, abutting, so the move operator must fall back to a block that
has a declared and present neighbor. -/
def c5Store : Store :=
  [Block.mk0 "A" 10 10 dontCare (some "B"),
   { Block.mk0 "B" 10 10 dontCare (some "A") with x := 10, y := 0 }]

/-- Floorplan for the move-perturbation failing input. -/
def c5FP : FloorPlan := { blocks := [0, 1], bounding_width := 20, bounding_height := 10 }

/-- Oracle for the move-perturbation failing input: draw 0 selects the
`move` operator (`2 % 4`), draw 1 picks block `A`, draws 2 and 3 give the
offset `+3` in `randint(-10, 10)` (`-10 + 13 % 21 = 3`). -/
def c5o : Oracle := fun n => if n == 0 then 2 else if n == 1 then 0 else 13

/-- Counterexample input for the grouping claim: two distinct blocks
sharing the name `"A"` (name uniqueness is a caller-side invariant the
grouping code does not re-validate). -/
def c6Dup : Store :=
  [Block.mk0 "A" 10 10 dontCare none, Block.mk0 "A" 20 10 dontCare none]

/-- Witness input for the amended grouping claim: an isolated block, a
two-cycle `B ↔ C` with an extra dependent `E`, and a dangling reference
`D → "X"`. -/
def c6W : Store :=
  [Block.mk0 "A" 5 5 dontCare none,
   Block.mk0 "B" 5 5 dontCare (some "C"),
   Block.mk0 "C" 5 5 dontCare (some "B"),
   Block.mk0 "D" 5 5 dontCare (some "X"),
   Block.mk0 "E" 5 5 dontCare (some "B")]

/-- Dependency chains of the grouping walk: `DepChain s i r` holds when
block `i` reaches block `r` through zero or more steps of "has a truthy
neighbor name that the block map sends to ...". -/
inductive DepChain (s : Store) : Nat → Nat → Prop
  | refl (i : Nat) : DepChain s i i
  | step {i j r : Nat} (nn : String) :
      dependsOn s (nameOf s i) = some nn →
      blockMapIdx s nn = some j →
      DepChain s j r → DepChain s i r

/-- A used-name set is closed when, whenever a name is used, every mapped
name depending on it is used as well.  After each breadth-first collection
the accumulated used set has this property. -/
def ClosedDep (s : Store) (u : List String) : Prop :=
  ∀ n ∈ u, ∀ m ∈ dependedBy s n, blockMapIdx s m ≠ none → m ∈ u

/-- Closure up to the pending entries of the work list. -/
def ClosedExceptDep (s : Store) (u tp : List String) : Prop :=
  ∀ n ∈ u, ∀ m ∈ dependedBy s n, blockMapIdx s m ≠ none → m ∈ u ∨ m ∈ tp

/-- Weight of the names not yet used, dominating the work the collection
can still perform. -/
def unusedWt (s : Store) (used : List String) : ℕ :=
  ∑ i ∈ (Finset.range s.length).filter (fun i => nameOf s i ∉ used),
    (1 + (dependedBy s (nameOf s i)).length)

/-- Termination potential of `bfsCollect`: every step strictly decreases
it, so it bounds the fuel the collection needs. -/
def bfsPot (s : Store) (tp used : List String) : ℕ :=
  tp.length + unusedWt s used

lemma update_bounding_box_blocks (s : Store) (fp : FloorPlan) :
    (fp.update_bounding_box s).blocks = fp.blocks := by
  unfold FloorPlan.update_bounding_box
  cases fp.blocks <;> simp

lemma neighbor_penalty_blocks_congr (s : Store) (fp fp' : FloorPlan)
    (h : fp.blocks = fp'.blocks) :
    calculate_neighbor_penalty s fp = calculate_neighbor_penalty s fp' := by
  unfold calculate_neighbor_penalty
  rw [h]

/-- Claim C8: rotating a block in its original orientation twice restores
its width, height and `rotated` flag; one rotation swaps width and height
and flips the flag. -/
theorem C8_rotation_involution (b : Block) (h : b.rotated = false) :
    (b.rotate.rotate.width = b.width ∧ b.rotate.rotate.height = b.height ∧
     b.rotate.rotate.rotated = false) ∧
    (b.rotate.width = b.height ∧ b.rotate.height = b.width ∧
     b.rotate.rotated = !b.rotated) := by
  simp [Block.rotate, h]

theorem C8_rotation_involution_witness :
    ((Block.mk0 "A" 3 7 dontCare none).rotated = false) ∧
    ((Block.mk0 "A" 3 7 dontCare none).rotate.rotate.width = (Block.mk0 "A" 3 7 dontCare none).width ∧
     (Block.mk0 "A" 3 7 dontCare none).rotate.rotate.height = (Block.mk0 "A" 3 7 dontCare none).height ∧
     (Block.mk0 "A" 3 7 dontCare none).rotate.rotate.rotated = false) ∧
    ((Block.mk0 "A" 3 7 dontCare none).rotate.width = (Block.mk0 "A" 3 7 dontCare none).height ∧
     (Block.mk0 "A" 3 7 dontCare none).rotate.height = (Block.mk0 "A" 3 7 dontCare none).width ∧
     (Block.mk0 "A" 3 7 dontCare none).rotate.rotated = !(Block.mk0 "A" 3 7 dontCare none).rotated) :=
  ⟨rfl, C8_rotation_involution _ rfl⟩

/-- Claim C10: abutting blocks never overlap, because the overlap test uses
strict interior intersection while abutment requires a shared boundary
coordinate. -/
theorem C10_abut_not_overlap (a b : Block) (_h1 : 0 < a.width) (_h2 : 0 < a.height)
    (_h3 : 0 < b.width) (_h4 : 0 < b.height) (hab : a.abuts b = true) :
    a.overlaps b = false := by
  simp only [Block.abuts, Bool.or_eq_true, Bool.and_eq_true, Bool.not_eq_true',
    Bool.or_eq_false_iff, decide_eq_true_eq, decide_eq_false_iff_not] at hab
  simp only [Block.overlaps, Bool.not_eq_false', Bool.or_eq_true, decide_eq_true_eq]
  rcases hab with ⟨h | h, -⟩ | ⟨h | h, -⟩ <;> · have := le_of_eq h; tauto

theorem C10_abut_not_overlap_witness :
    (0 < (Block.mk0 "A" 10 10 dontCare none).width ∧
     (Block.mk0 "A" 10 10 dontCare none).abuts ({ Block.mk0 "B" 10 10 dontCare none with x := 10 }) = true) ∧
    (Block.mk0 "A" 10 10 dontCare none).overlaps ({ Block.mk0 "B" 10 10 dontCare none with x := 10 }) = false :=
  ⟨⟨by norm_num [Block.mk0], by decide⟩,
   C10_abut_not_overlap _ _ (by norm_num [Block.mk0]) (by norm_num [Block.mk0])
     (by norm_num [Block.mk0]) (by norm_num [Block.mk0]) (by decide)⟩

/-- Claim C9: the empty block list returns an empty layout with a zero
bounding box and no error, for any aspect bound of at least one. -/
theorem C9_empty_input (ma : ℚ) (o : Oracle) (_h : 1 ≤ ma) :
    calculate_floorplan [] ma o = .ok ([], FloorPlan.empty) ∧
    FloorPlan.empty.bounding_width = 0 ∧ FloorPlan.empty.bounding_height = 0 :=
  ⟨rfl, rfl, rfl⟩

theorem C9_empty_input_witness :
    (1 : ℚ) ≤ 2 ∧
    (calculate_floorplan [] 2 oZero = .ok ([], FloorPlan.empty) ∧
     FloorPlan.empty.bounding_width = 0 ∧ FloorPlan.empty.bounding_height = 0) :=
  ⟨by norm_num, C9_empty_input 2 oZero (by norm_num)⟩

/-- Counterexample to claim C2 as stated: with an empty block list and an
aspect bound below one, `calculate_floorplan` returns the empty layout
without raising `InvalidAspectRatio`, because the empty-input
short-circuit runs before the aspect validation. -/
theorem C2_cex_empty_low_bound :
    calculate_floorplan [] (1 / 2) oZero = .ok ([], FloorPlan.empty) ∧
    ((1 : ℚ) / 2 < 1) :=
  ⟨rfl, by norm_num⟩

/-- Claim C2 as amended: for a nonempty block list, the call fails with
`InvalidDimension` iff some block has a nonpositive dimension, and fails
with `InvalidAspectRatio` iff all dimensions are positive and the bound is
below one (the dimension check runs first); the empty list never fails. -/
theorem C2_validation_amended (blocks : List Block) (ma : ℚ) (o : Oracle)
    (h : blocks ≠ []) :
    (isInvalidDim (calculate_floorplan blocks ma o) = true ↔
      ∃ b ∈ blocks, b.width ≤ 0 ∨ b.height ≤ 0) ∧
    (isInvalidAspect (calculate_floorplan blocks ma o) = true ↔
      ((∀ b ∈ blocks, 0 < b.width ∧ 0 < b.height) ∧ ma < 1)) := by
  unfold calculate_floorplan
  rw [if_neg (by simp [List.isEmpty_iff, h])]
  cases hf : blocks.find? (fun b => decide (b.width ≤ 0) || decide (b.height ≤ 0)) with
  | some b =>
    have hp := List.find?_some hf
    have hm := List.mem_of_find?_eq_some hf
    simp only [Bool.or_eq_true, decide_eq_true_eq] at hp
    constructor
    · exact ⟨fun _ => ⟨b, hm, hp⟩, fun _ => rfl⟩
    · constructor
      · intro hc; simp [isInvalidAspect] at hc
      · rintro ⟨hall, -⟩
        rcases hall b hm with ⟨hw, hh⟩
        rcases hp with hp | hp <;> linarith
  | none =>
    rw [List.find?_eq_none] at hf
    have hall : ∀ b ∈ blocks, 0 < b.width ∧ 0 < b.height := by
      intro b hb
      have hb2 := hf b hb
      simp only [Bool.or_eq_true, decide_eq_true_eq, not_or] at hb2
      exact ⟨lt_of_not_le hb2.1, lt_of_not_le hb2.2⟩
    have hnoDim : ¬∃ b ∈ blocks, b.width ≤ 0 ∨ b.height ≤ 0 := by
      rintro ⟨b, hb, hbad⟩
      rcases hall b hb with ⟨hw, hh⟩
      rcases hbad with hbad | hbad <;> linarith
    by_cases hma : ma < 1
    · rw [if_pos hma]
      constructor
      · constructor
        · intro hc; simp [isInvalidDim] at hc
        · intro hc; exact absurd hc hnoDim
      · exact ⟨fun _ => ⟨hall, hma⟩, fun _ => rfl⟩
    · rw [if_neg hma]
      constructor
      · constructor
        · intro hc; simp [isInvalidDim] at hc
        · intro hc; exact absurd hc hnoDim
      · constructor
        · intro hc; simp [isInvalidAspect] at hc
        · rintro ⟨-, hlt⟩; exact absurd hlt hma

theorem C2_validation_amended_witness :
    ([Block.mk0 "A" 0 5 dontCare none] ≠ ([] : List Block)) ∧
    (isInvalidDim (calculate_floorplan [Block.mk0 "A" 0 5 dontCare none] (1 / 2) oZero) = true ↔
      ∃ b ∈ [Block.mk0 "A" 0 5 dontCare none], b.width ≤ 0 ∨ b.height ≤ 0) :=
  ⟨by simp, (C2_validation_amended [Block.mk0 "A" 0 5 dontCare none] (1 / 2) oZero (by simp)).1⟩

/-- Claim C4 refuted on the code: in the overlap-resolution step of corner
enforcement, the identified top-left-corner block (index 0, at the origin)
is itself relocated to `(100, 0)`, because the non-corner test compares a
preference string against Block objects and is always false. -/
theorem C4_corner_block_moved :
    cornerBlocksOf c4Store c4FP = [("top-left-corner", 0)] ∧
    (c4Store.getB 0).x = 0 ∧ (c4Store.getB 0).y = 0 ∧
    ((resolveSnapOverlaps c4Store c4FP
        ((cornerBlocksOf c4Store c4FP).map (·.2)) false).1.getB 0).x = 100 ∧
    ((resolveSnapOverlaps c4Store c4FP
        ((cornerBlocksOf c4Store c4FP).map (·.2)) false).1.getB 0).y = 0 := by
  refine ⟨by decide, by decide, by decide, by decide, by decide⟩

/-- Claim C5 refuted on the code: in the move perturbation, block `A`
(declared neighbor `B`, present in the layout) is translated by `(3, 3)`,
but `B` keeps its position: the offset is computed after `block.x` has
already been overwritten, so the translation applied to the neighbor is
zero. -/
theorem C5_neighbor_not_translated :
    strVal ((c5Store.getB 0).neighbor) = "B" ∧ nameOf c5Store 1 = "B" ∧
    c5FP.blocks = [0, 1] ∧
    ((generate_neighbor c5o c5Store c5FP).1.getB 0).x = (c5Store.getB 0).x + 3 ∧
    ((generate_neighbor c5o c5Store c5FP).1.getB 0).y = (c5Store.getB 0).y + 3 ∧
    ((generate_neighbor c5o c5Store c5FP).1.getB 1).x = (c5Store.getB 1).x ∧
    ((generate_neighbor c5o c5Store c5FP).1.getB 1).y = (c5Store.getB 1).y := by
  refine ⟨rfl, rfl, rfl, by decide, by decide, by decide, by decide⟩

/-- Claim C3: on a layout with nonzero (recomputed) bounding dimensions the
cost function returns exactly
`area + aspect_penalty + overlap_penalty + (location_penalty + neighbor_penalty) * area * 10000`
with the penalties as the specification words them, and on a degenerate
layout it returns the infinite cost. -/
theorem C3_cost_formula (s : Store) (fp : FloorPlan) (ma : ℚ) :
    (((fp.update_bounding_box s).bounding_width ≠ 0 ∧
      (fp.update_bounding_box s).bounding_height ≠ 0) →
      (calculate_cost s fp ma).2 = some (cost_spec s (fp.update_bounding_box s) ma)) ∧
    (((fp.update_bounding_box s).bounding_width = 0 ∨
      (fp.update_bounding_box s).bounding_height = 0) →
      (calculate_cost s fp ma).2 = none) := by
  have hnp : calculate_neighbor_penalty s (calculate_location_penalty s (fp.update_bounding_box s)).1
      = calculate_neighbor_penalty s (fp.update_bounding_box s) := by
    unfold calculate_location_penalty
    by_cases he : (fp.update_bounding_box s).blocks.isEmpty
    · rw [if_pos he]
    · rw [if_neg he]
      exact neighbor_penalty_blocks_congr _ _ _ (update_bounding_box_blocks _ _)
  constructor
  · rintro ⟨hw, hh⟩
    simp only [calculate_cost, cost_spec, aspect_penalty_spec, overlap_penalty_spec,
      FloorPlan.get_area, hnp]
    rw [if_neg (by simp [hw, hh])]
    split_ifs <;> · simp only [Option.some.injEq]; ring
  · intro hz
    simp only [calculate_cost]
    rw [if_pos (by rcases hz with hz | hz <;> simp [hz])]

theorem C3_cost_formula_witness :
    ((c1FP.update_bounding_box c1Store).bounding_width ≠ 0 ∧
     (c1FP.update_bounding_box c1Store).bounding_height ≠ 0) ∧
    (calculate_cost c1Store c1FP 2).2 =
      some (cost_spec c1Store (c1FP.update_bounding_box c1Store) 2) :=
  ⟨⟨by decide, by decide⟩, (C3_cost_formula c1Store c1FP 2).1 ⟨by decide, by decide⟩⟩

lemma c1_initial : get_initial_solution c1Blocks = (c1Store, c1FP) := by decide

lemma c1_overlaps : FloorPlan.has_overlaps c1Store c1FP = true := by decide

lemma c1_gen : generate_neighbor o46 c1Store c1FP = (c1Store, c1FP, o46) := rfl

lemma c1_inner (k : Nat) : saInner 2 k c1SA = c1SA := by
  induction k with
  | zero => rfl
  | succ n ih =>
    have hgen : generate_neighbor c1SA.oracle c1SA.curS c1SA.curFp
        = (c1Store, c1FP, o46) := c1_gen
    simp only [saInner, hgen, c1_overlaps, if_true]
    have hst : ({ c1SA with oracle := o46 } : SAState) = c1SA := rfl
    rw [hst, ih]

lemma c1_loop (fuel : Nat) : ∀ temp, saLoop 2 fuel temp c1SA = c1SA := by
  induction fuel with
  | zero => intro temp; rfl
  | succ n ih =>
    intro temp
    by_cases h : temp ≤ 1 / 10
    · rw [saLoop, if_pos h]
    · rw [saLoop, if_neg h, c1_inner 100, ih]

lemma c1_sa : simulated_annealing o46 c1Store c1FP 2 = (c1Store, c1FP) := by
  have h0 : simulated_annealing o46 c1Store c1FP 2
      = enforce_corner_constraints (saLoop 2 400 5000 c1SA).bestS
          (saLoop 2 400 5000 c1SA).bestFp := rfl
  rw [h0, c1_loop 400 5000]
  show enforce_corner_constraints c1Store c1FP = (c1Store, c1FP)
  decide

/-- Claim C1 refuted on the code: `c1Blocks` passes validation, yet with
the adversarial random stream `o46` the returned layout still contains an
overlapping pair (blocks `B` and `C` of the initial greedy solution, which
every annealing step leaves in place and corner enforcement never touches
because no block has a corner preference). -/
theorem C1_overlap_returned :
    resultHasOverlap (calculate_floorplan c1Blocks 2 o46) = true ∧
    (∀ b ∈ c1Blocks, 0 < b.width ∧ 0 < b.height) ∧ (1 : ℚ) ≤ 2 := by
  refine ⟨?_, by decide, by norm_num⟩
  have h0 : calculate_floorplan c1Blocks 2 o46
      = .ok (simulated_annealing o46 (get_initial_solution c1Blocks).1
          (get_initial_solution c1Blocks).2 2) := rfl
  rw [h0, c1_initial]
  show resultHasOverlap (.ok (simulated_annealing o46 c1Store c1FP 2)) = true
  rw [c1_sa]
  decide

lemma getB_setB_self (s : Store) (i : Nat) (b : Block) :
    (s.setB i b).getB i = if i < s.length then b else s.getB i := by
  unfold Store.setB Store.getB
  induction s generalizing i with
  | nil => simp
  | cons hd tl ih =>
    cases i with
    | zero => simp
    | succ j =>
      simp only [List.set, List.getD, List.length_cons, Nat.add_lt_add_iff_right,
        List.get?_cons_succ, Nat.succ_lt_succ_iff]
      simpa using ih j

lemma default_block_x : (default : Block).x = 0 := rfl

lemma default_block_y : (default : Block).y = 0 := rfl

lemma gtLoopX_fuel (fuel : Nat) : ∀ (extra : Nat) (s : Store) (fp : FloorPlan)
    (i : Nat) (imp : Bool), (s.getB i).x ≤ (fuel : ℚ) →
    gtLoopX (fuel + extra) s fp i imp = gtLoopX fuel s fp i imp := by
  induction fuel with
  | zero =>
    intro extra s fp i imp hx
    cases extra with
    | zero => rfl
    | succ e =>
      have h0 : 0 + (e + 1) = e + 1 := by omega
      rw [h0]
      simp only [gtLoopX]
      rw [if_neg (by push_cast at hx; exact not_lt.mpr hx)]
  | succ n ih =>
    intro extra s fp i imp hx
    have he : (n + 1) + extra = (n + extra) + 1 := by omega
    rw [he]
    simp only [gtLoopX]
    by_cases h : 0 < (s.getB i).x
    · rw [if_pos h, if_pos h]
      by_cases hlen : i < s.length
      · have hx1 : ((s.setB i { s.getB i with x := (s.getB i).x - 1 }).getB i).x ≤ (n : ℚ) := by
          rw [getB_setB_self, if_pos hlen]
          push_cast at hx ⊢
          linarith
        by_cases hb : (overlapOrViolates (s.setB i { s.getB i with x := (s.getB i).x - 1 }) fp i).1
        · simp only [hb, if_true]
        · simp only [hb, if_false, Bool.false_eq_true]
          exact ih extra _ _ i true hx1
      · exfalso
        have : s.getB i = default := by
          unfold Store.getB
          rw [List.getD_eq_default]
          omega
        rw [this, default_block_x] at h
        exact lt_irrefl 0 h
    · rw [if_neg h, if_neg h]

lemma gtLoopY_fuel (fuel : Nat) : ∀ (extra : Nat) (s : Store) (fp : FloorPlan)
    (i : Nat) (imp : Bool), (s.getB i).y ≤ (fuel : ℚ) →
    gtLoopY (fuel + extra) s fp i imp = gtLoopY fuel s fp i imp := by
  induction fuel with
  | zero =>
    intro extra s fp i imp hy
    cases extra with
    | zero => rfl
    | succ e =>
      have h0 : 0 + (e + 1) = e + 1 := by omega
      rw [h0]
      simp only [gtLoopY]
      rw [if_neg (by push_cast at hy; exact not_lt.mpr hy)]
  | succ n ih =>
    intro extra s fp i imp hy
    have he : (n + 1) + extra = (n + extra) + 1 := by omega
    rw [he]
    simp only [gtLoopY]
    by_cases h : 0 < (s.getB i).y
    · rw [if_pos h, if_pos h]
      by_cases hlen : i < s.length
      · have hy1 : ((s.setB i { s.getB i with y := (s.getB i).y - 1 }).getB i).y ≤ (n : ℚ) := by
          rw [getB_setB_self, if_pos hlen]
          push_cast at hy ⊢
          linarith
        by_cases hb : (overlapOrViolates (s.setB i { s.getB i with y := (s.getB i).y - 1 }) fp i).1
        · simp only [hb, if_true]
        · simp only [hb, if_false, Bool.false_eq_true]
          exact ih extra _ _ i true hy1
      · exfalso
        have hd : s.getB i = default := by
          unfold Store.getB
          rw [List.getD_eq_default]
          omega
        rw [hd, default_block_y] at h
        exact lt_irrefl 0 h
    · rw [if_neg h, if_neg h]

lemma geLoopX_fuel (step : ℚ) (hs : 0 < step) (fuel : Nat) :
    ∀ (extra : Nat) (s : Store) (fp : FloorPlan) (i : Nat) (imp : Bool),
    (s.getB i).x ≤ step * (fuel : ℚ) →
    geLoopX step (fuel + extra) s fp i imp = geLoopX step fuel s fp i imp := by
  induction fuel with
  | zero =>
    intro extra s fp i imp hx
    cases extra with
    | zero => rfl
    | succ e =>
      have h0 : 0 + (e + 1) = e + 1 := by omega
      rw [h0]
      simp only [geLoopX]
      rw [if_neg (by push_cast at hx; nlinarith)]
  | succ n ih =>
    intro extra s fp i imp hx
    have he : (n + 1) + extra = (n + extra) + 1 := by omega
    rw [he]
    simp only [geLoopX]
    by_cases h : step ≤ (s.getB i).x
    · rw [if_pos h, if_pos h]
      by_cases hlen : i < s.length
      · have hx1 : ((s.setB i { s.getB i with x := (s.getB i).x - step }).getB i).x ≤ step * (n : ℚ) := by
          rw [getB_setB_self, if_pos hlen]
          push_cast at hx ⊢
          nlinarith
        by_cases hb : (overlapOrViolates (s.setB i { s.getB i with x := (s.getB i).x - step }) fp i).1
        · simp only [hb, if_true]
        · simp only [hb, if_false, Bool.false_eq_true]
          exact ih extra _ _ i true hx1
      · exfalso
        have hd : s.getB i = default := by
          unfold Store.getB
          rw [List.getD_eq_default]
          omega
        rw [hd, default_block_x] at h
        exact absurd h (not_le.mpr hs)
    · rw [if_neg h, if_neg h]

lemma geLoopY_fuel (step : ℚ) (hs : 0 < step) (fuel : Nat) :
    ∀ (extra : Nat) (s : Store) (fp : FloorPlan) (i : Nat) (imp : Bool),
    (s.getB i).y ≤ step * (fuel : ℚ) →
    geLoopY step (fuel + extra) s fp i imp = geLoopY step fuel s fp i imp := by
  induction fuel with
  | zero =>
    intro extra s fp i imp hy
    cases extra with
    | zero => rfl
    | succ e =>
      have h0 : 0 + (e + 1) = e + 1 := by omega
      rw [h0]
      simp only [geLoopY]
      rw [if_neg (by push_cast at hy; nlinarith)]
  | succ n ih =>
    intro extra s fp i imp hy
    have he : (n + 1) + extra = (n + extra) + 1 := by omega
    rw [he]
    simp only [geLoopY]
    by_cases h : step ≤ (s.getB i).y
    · rw [if_pos h, if_pos h]
      by_cases hlen : i < s.length
      · have hy1 : ((s.setB i { s.getB i with y := (s.getB i).y - step }).getB i).y ≤ step * (n : ℚ) := by
          rw [getB_setB_self, if_pos hlen]
          push_cast at hy ⊢
          nlinarith
        by_cases hb : (overlapOrViolates (s.setB i { s.getB i with y := (s.getB i).y - step }) fp i).1
        · simp only [hb, if_true]
        · simp only [hb, if_false, Bool.false_eq_true]
          exact ih extra _ _ i true hy1
      · exfalso
        have hd : s.getB i = default := by
          unfold Store.getB
          rw [List.getD_eq_default]
          omega
        rw [hd, default_block_y] at h
        exact absurd h (not_le.mpr hs)
    · rw [if_neg h, if_neg h]

lemma saLoop_fuel (ma : ℚ) (fuel : Nat) :
    ∀ (extra : Nat) (temp : ℚ) (st : SAState), temp * (97 / 100) ^ fuel ≤ 1 / 10 →
    saLoop ma (fuel + extra) temp st = saLoop ma fuel temp st := by
  induction fuel with
  | zero =>
    intro extra temp st ht
    rw [pow_zero, mul_one] at ht
    cases extra with
    | zero => rfl
    | succ e =>
      have h0 : 0 + (e + 1) = e + 1 := by omega
      rw [h0]
      simp only [saLoop]
      rw [if_pos ht]
  | succ n ih =>
    intro extra temp st ht
    have he : (n + 1) + extra = (n + extra) + 1 := by omega
    rw [he]
    simp only [saLoop]
    by_cases h : temp ≤ 1 / 10
    · rw [if_pos h, if_pos h]
    · rw [if_neg h, if_neg h]
      refine ih extra (temp * (97 / 100)) (saInner ma 100 st) ?_
      calc temp * (97 / 100) * (97 / 100) ^ n
          = temp * (97 / 100) ^ (n + 1) := by ring
        _ ≤ 1 / 10 := ht

set_option maxRecDepth 4000 in
set_option exponentiation.threshold 500 in
lemma schedule_cools : (5000 : ℚ) * (97 / 100) ^ 400 ≤ 1 / 10 := by decide

lemma ceil_toNat_ge (q : ℚ) : q ≤ ((⌈q⌉.toNat : ℕ) : ℚ) := by
  rcases le_or_lt q 0 with h | h
  · exact le_trans h (by positivity)
  · have h0 : (0 : ℤ) ≤ ⌈q⌉ := Int.ceil_nonneg h.le
    have h1 : ((⌈q⌉.toNat : ℤ) : ℚ) = ((⌈q⌉ : ℤ) : ℚ) := by
      rw [Int.toNat_of_nonneg h0]
    have h2 : q ≤ ((⌈q⌉ : ℤ) : ℚ) := Int.le_ceil q
    push_cast at h1 ⊢
    linarith

/-- Claim C7: for every input that passes validation the pipeline returns a
layout, the annealing loop is insensitive to fuel beyond the 400 cooling
steps it is given (the temperature `5000 * 0.97 ^ k` is at most `0.1`
within that budget), and the unit-step and stepped shift loops of
placement, perturbation and compaction are insensitive to fuel beyond the
`⌈x⌉`-style budgets computed at their call sites — i.e. every such loop
terminates within its modelled bound. -/
theorem C7_termination (blocks : List Block) (ma : ℚ) (o : Oracle)
    (hdim : ∀ b ∈ blocks, 0 < b.width ∧ 0 < b.height) (hma : 1 ≤ ma) :
    (∃ res, calculate_floorplan blocks ma o = .ok res) ∧
    (∀ (extra : Nat) (st : SAState),
      saLoop ma (400 + extra) 5000 st = saLoop ma 400 5000 st) ∧
    (∀ (extra : Nat) (s : Store) (fp : FloorPlan) (i : Nat) (imp : Bool),
      gtLoopX (⌈(s.getB i).x⌉.toNat + extra) s fp i imp
        = gtLoopX (⌈(s.getB i).x⌉.toNat) s fp i imp) ∧
    (∀ (extra : Nat) (s : Store) (fp : FloorPlan) (i : Nat) (imp : Bool),
      gtLoopY (⌈(s.getB i).y⌉.toNat + extra) s fp i imp
        = gtLoopY (⌈(s.getB i).y⌉.toNat) s fp i imp) ∧
    (∀ (step : ℚ) (extra : Nat) (s : Store) (fp : FloorPlan) (i : Nat) (imp : Bool),
      0 < step →
      geLoopX step (⌈(s.getB i).x / step⌉.toNat + extra) s fp i imp
        = geLoopX step (⌈(s.getB i).x / step⌉.toNat) s fp i imp) ∧
    (∀ (step : ℚ) (extra : Nat) (s : Store) (fp : FloorPlan) (i : Nat) (imp : Bool),
      0 < step →
      geLoopY step (⌈(s.getB i).y / step⌉.toNat + extra) s fp i imp
        = geLoopY step (⌈(s.getB i).y / step⌉.toNat) s fp i imp) := by
  refine ⟨?_, ?_, ?_, ?_, ?_, ?_⟩
  · unfold calculate_floorplan
    by_cases he : blocks.isEmpty
    · rw [if_pos he]
      exact ⟨_, rfl⟩
    · rw [if_neg he]
      have hf : blocks.find? (fun b => decide (b.width ≤ 0) || decide (b.height ≤ 0)) = none := by
        rw [List.find?_eq_none]
        intro b hb
        rcases hdim b hb with ⟨hw, hh⟩
        simp only [Bool.or_eq_true, decide_eq_true_eq, not_or]
        exact ⟨not_le.mpr hw, not_le.mpr hh⟩
      rw [hf]
      refine ⟨simulated_annealing o (get_initial_solution blocks).1
        (get_initial_solution blocks).2 ma, ?_⟩
      show (if ma < 1 then Except.error (FPError.invalidAspect ma) else
        Except.ok (simulated_annealing o (get_initial_solution blocks).1
          (get_initial_solution blocks).2 ma)) = _
      rw [if_neg (not_lt.mpr hma)]
  · intro extra st
    exact saLoop_fuel ma 400 extra 5000 st schedule_cools
  · intro extra s fp i imp
    exact gtLoopX_fuel _ extra s fp i imp (ceil_toNat_ge _)
  · intro extra s fp i imp
    exact gtLoopY_fuel _ extra s fp i imp (ceil_toNat_ge _)
  · intro step extra s fp i imp hs
    refine geLoopX_fuel step hs _ extra s fp i imp ?_
    have h1 : (s.getB i).x / step ≤ (((⌈(s.getB i).x / step⌉.toNat : ℕ)) : ℚ) :=
      ceil_toNat_ge _
    calc (s.getB i).x = step * ((s.getB i).x / step) := by field_simp
      _ ≤ step * (((⌈(s.getB i).x / step⌉.toNat : ℕ)) : ℚ) :=
        mul_le_mul_of_nonneg_left h1 hs.le
  · intro step extra s fp i imp hs
    refine geLoopY_fuel step hs _ extra s fp i imp ?_
    have h1 : (s.getB i).y / step ≤ (((⌈(s.getB i).y / step⌉.toNat : ℕ)) : ℚ) :=
      ceil_toNat_ge _
    calc (s.getB i).y = step * ((s.getB i).y / step) := by field_simp
      _ ≤ step * (((⌈(s.getB i).y / step⌉.toNat : ℕ)) : ℚ) :=
        mul_le_mul_of_nonneg_left h1 hs.le

theorem C7_termination_witness :
    (∀ b ∈ [Block.mk0 "A" 5 5 dontCare none], 0 < b.width ∧ 0 < b.height) ∧
    ((1 : ℚ) ≤ 2) ∧
    (∃ res, calculate_floorplan [Block.mk0 "A" 5 5 dontCare none] 2 oZero = .ok res) :=
  ⟨by decide, by norm_num,
   (C7_termination [Block.mk0 "A" 5 5 dontCare none] 2 oZero (by decide) (by norm_num)).1⟩

-- ===== C6 lemma stack =====

/-- At an in-range index, the name of the block at that index is the
corresponding entry of the name list. -/
lemma nameOf_getElem (s : Store) {i : Nat} (hi : i < s.length)
    (h2 : i < (s.map Block.name).length) :
    nameOf s i = (s.map Block.name).get ⟨i, h2⟩ := by
  have h3 : (s.map Block.name).get ⟨i, h2⟩ = (s.getB i).name := by
    simp only [List.get_eq_getElem, List.getElem_map]
    rw [Store.getB, List.getD_eq_getElem s default hi]
  exact h3.symm

/-- Under distinct names, `nameOf` is injective on in-range indices. -/
lemma nameOf_inj {s : Store} (hnd : (s.map Block.name).Nodup) {i j : Nat}
    (hi : i < s.length) (hj : j < s.length) (h : nameOf s i = nameOf s j) :
    i = j := by
  have hi2 : i < (s.map Block.name).length := by simpa using hi
  have hj2 : j < (s.map Block.name).length := by simpa using hj
  have e1 := nameOf_getElem s hi hi2
  have e2 := nameOf_getElem s hj hj2
  have hg : (s.map Block.name).get ⟨i, hi2⟩ = (s.map Block.name).get ⟨j, hj2⟩ :=
    e1.symm.trans (h.trans e2)
  rw [List.get_eq_getElem, List.get_eq_getElem] at hg
  exact (hnd.getElem_inj_iff).mp hg

/-- Invariant of the fold that implements the block-name map: any property
holding of the initial accumulator and of every matching index in the list
holds of the result. -/
lemma blockFold_inv (s : Store) (n : String) (P : Nat → Prop) :
    ∀ (l : List Nat) (acc : Option Nat),
      (∀ j, acc = some j → P j) →
      (∀ j ∈ l, nameOf s j = n → P j) →
      ∀ j, l.foldl (fun a i => if nameOf s i == n then some i else a) acc = some j →
        P j := by
  intro l
  induction l with
  | nil => exact fun acc hacc _ j hj => hacc j hj
  | cons a t ih =>
    intro acc hacc hl j hj
    simp only [List.foldl_cons] at hj
    by_cases ha : nameOf s a == n
    · rw [if_pos ha] at hj
      refine ih (some a) ?_ (fun k hk hkn => hl k (List.mem_cons_of_mem a hk) hkn) j hj
      intro k hk
      have hak : a = k := by injection hk
      subst hak
      exact hl a (List.mem_cons_self a t) (by simpa using ha)
    · rw [if_neg ha] at hj
      exact ih acc hacc (fun k hk hkn => hl k (List.mem_cons_of_mem a hk) hkn) j hj

/-- A successful block-map lookup returns an in-range index carrying the
looked-up name. -/
lemma blockMapIdx_some {s : Store} {n : String} {j : Nat}
    (h : blockMapIdx s n = some j) : j < s.length ∧ nameOf s j = n := by
  unfold blockMapIdx at h
  refine blockFold_inv s n (fun j => j < s.length ∧ nameOf s j = n)
    (List.range s.length) none (fun k hk => Option.noConfusion hk) ?_ j h
  exact fun k hk hkn => ⟨List.mem_range.mp hk, hkn⟩

/-- The fold that implements the block-name map returns `some i` whenever
`i` is the only matching index and it either sits in the list or is already
the accumulator. -/
lemma blockFold_some (s : Store) (n : String) (i : Nat) (hni : nameOf s i = n) :
    ∀ (l : List Nat) (acc : Option Nat),
      (∀ j ∈ l, nameOf s j = n → j = i) →
      (i ∈ l ∨ acc = some i) →
      l.foldl (fun a k => if nameOf s k == n then some k else a) acc = some i := by
  intro l
  induction l with
  | nil =>
    intro acc _ h
    rcases h with h | h
    · exact absurd h (List.not_mem_nil i)
    · simpa using h
  | cons a t ih =>
    intro acc hl h
    simp only [List.foldl_cons]
    by_cases ha : nameOf s a == n
    · rw [if_pos ha]
      have hai : a = i := hl a (List.mem_cons_self a t) (by simpa using ha)
      subst hai
      exact ih (some a) (fun k hk hkn => hl k (List.mem_cons_of_mem a hk) hkn)
        (Or.inr rfl)
    · rw [if_neg ha]
      refine ih acc (fun k hk hkn => hl k (List.mem_cons_of_mem a hk) hkn) ?_
      rcases h with h | h
      · rcases List.mem_cons.mp h with h | h
        · exfalso
          apply ha
          rw [← h]
          simp [hni]
        · exact Or.inl h
      · exact Or.inr h

/-- Under distinct names, looking up the name of an in-range index returns
that index. -/
lemma blockMapIdx_self {s : Store} (hnd : (s.map Block.name).Nodup) {i : Nat}
    (hi : i < s.length) : blockMapIdx s (nameOf s i) = some i := by
  unfold blockMapIdx
  refine blockFold_some s (nameOf s i) i rfl (List.range s.length) none ?_
    (Or.inl (List.mem_range.mpr hi))
  exact fun j hj hjn => nameOf_inj hnd (List.mem_range.mp hj) hi hjn

/-- A recorded dependency of `n` on `nn` puts `n` among the names that
depend on `nn`. -/
lemma dependsOn_mem_dependedBy {s : Store} {n nn : String}
    (h : dependsOn s n = some nn) : n ∈ dependedBy s nn := by
  unfold dependsOn at h
  rcases Option.map_eq_some'.mp h with ⟨b, hb, hval⟩
  have hmem : b ∈ s.filter (fun b => truthyStr b.neighbor && b.name == n) := by
    rcases List.getLast?_eq_some_iff.mp hb with ⟨ys, hys⟩
    rw [hys]
    exact List.mem_append_right ys (List.mem_singleton.mpr rfl)
  rw [List.mem_filter] at hmem
  obtain ⟨hbs, hcond⟩ := hmem
  have hcond2 : truthyStr b.neighbor = true ∧ b.name = n := by simpa using hcond
  obtain ⟨ht, hname⟩ := hcond2
  unfold dependedBy
  rw [← hval, ← hname]
  exact List.mem_map.mpr ⟨b, List.mem_filter.mpr ⟨hbs, by simp [ht]⟩, rfl⟩

/-- The backward walk always produces an endpoint reachable by a dependency
chain from its start. -/
lemma chainRoot_chain (s : Store) :
    ∀ (fuel i : Nat) (mem : List String), DepChain s i (chainRoot s fuel i mem) := by
  intro fuel
  induction fuel with
  | zero => exact fun i mem => DepChain.refl i
  | succ f ih =>
    intro i mem
    rw [chainRoot]
    split
    · exact DepChain.refl i
    next nn hd =>
      split
      · exact DepChain.refl i
      · split
        next j hm => exact DepChain.step nn hd hm (ih j (nn :: mem))
        next _ => exact DepChain.refl i

/-- If the start of the backward walk has a mapped name, so does the
endpoint. -/
lemma chainRoot_mapped (s : Store) :
    ∀ (fuel i : Nat) (mem : List String),
      blockMapIdx s (nameOf s i) ≠ none →
      blockMapIdx s (nameOf s (chainRoot s fuel i mem)) ≠ none := by
  intro fuel
  induction fuel with
  | zero => exact fun i mem h => h
  | succ f ih =>
    intro i mem h
    rw [chainRoot]
    split
    · exact h
    next nn hd =>
      split
      · exact h
      · split
        next j hm =>
          refine ih j (nn :: mem) ?_
          rw [(blockMapIdx_some hm).2, hm]
          exact fun hc => Option.noConfusion hc
        next _ => exact h

/-- A closed used-name set that contains the endpoint of a dependency chain
contains the start of the chain, provided the start has a mapped name. -/
lemma chain_used {s : Store} {u : List String} (hcl : ClosedDep s u) {i r : Nat}
    (hc : DepChain s i r) :
    blockMapIdx s (nameOf s i) ≠ none → nameOf s r ∈ u → nameOf s i ∈ u := by
  induction hc with
  | refl i => exact fun _ h => h
  | @step i j r nn hd hm hrest ih =>
    intro hmap hr
    have hj : nameOf s j ∈ u := by
      refine ih ?_ hr
      rw [(blockMapIdx_some hm).2, hm]
      exact fun hc => Option.noConfusion hc
    have hdep : nameOf s i ∈ dependedBy s (nameOf s j) := by
      rw [(blockMapIdx_some hm).2]
      exact dependsOn_mem_dependedBy hd
    exact hcl (nameOf s j) hj (nameOf s i) hdep hmap

/-- The breadth-first collection only ever grows the used-name set. -/
lemma bfs_used_mono (s : Store) :
    ∀ (fuel : Nat) (tp used : List String) (x : String),
      x ∈ used → x ∈ (bfsCollect s fuel tp used).2 := by
  intro fuel
  induction fuel with
  | zero => exact fun tp used x hx => hx
  | succ f ih =>
    intro tp used x hx
    cases tp with
    | nil => exact hx
    | cons n rest =>
      simp only [bfsCollect]
      by_cases hn : n ∈ used
      · rw [if_pos hn]
        exact ih rest used x hx
      · rw [if_neg hn]
        cases hm : blockMapIdx s n with
        | none => exact ih rest used x hx
        | some j => exact ih (rest ++ dependedBy s n) (n :: used) x (List.mem_cons_of_mem n hx)

/-- With at least one unit of fuel, an unused mapped head name is marked
used by the collection. -/
lemma bfs_head_used (s : Store) {n : String} {j : Nat} (fuel : Nat)
    (hfu : 1 ≤ fuel) (tp used : List String)
    (hn : n ∉ used) (hm : blockMapIdx s n = some j) :
    n ∈ (bfsCollect s fuel (n :: tp) used).2 := by
  cases fuel with
  | zero => omega
  | succ f =>
    simp only [bfsCollect]
    rw [if_neg hn, hm]
    exact bfs_used_mono s f (tp ++ dependedBy s n) (n :: used) n
      (List.mem_cons_self n used)

/-- Under distinct names, the group produced by a collection run contains an
in-range index once when its name became used during the run, and not at
all otherwise. -/
lemma bfs_count {s : Store} (hnd : (s.map Block.name).Nodup) {i : Nat}
    (hi : i < s.length) :
    ∀ (fuel : Nat) (tp used : List String),
      (bfsCollect s fuel tp used).1.count i =
        if nameOf s i ∈ (bfsCollect s fuel tp used).2 ∧ nameOf s i ∉ used
        then 1 else 0 := by
  intro fuel
  induction fuel with
  | zero =>
    intro tp used
    simp only [bfsCollect, List.count_nil]
    rw [if_neg]
    rintro ⟨h1, h2⟩
    exact h2 h1
  | succ f ih =>
    intro tp used
    cases tp with
    | nil =>
      simp only [bfsCollect, List.count_nil]
      rw [if_neg]
      rintro ⟨h1, h2⟩
      exact h2 h1
    | cons n rest =>
      simp only [bfsCollect]
      by_cases hn : n ∈ used
      · rw [if_pos hn]
        exact ih rest used
      · rw [if_neg hn]
        cases hm : blockMapIdx s n with
        | none => exact ih rest used
        | some j =>
          obtain ⟨hjl, hjn⟩ := blockMapIdx_some hm
          show (j :: (bfsCollect s f (rest ++ dependedBy s n) (n :: used)).1).count i =
            if nameOf s i ∈ (bfsCollect s f (rest ++ dependedBy s n) (n :: used)).2 ∧
               nameOf s i ∉ used then 1 else 0
          rw [List.count_cons]
          by_cases hij : i = j
          · have hni : nameOf s i = n := by rw [hij]; exact hjn
            have hmem : n ∈ (bfsCollect s f (rest ++ dependedBy s n) (n :: used)).2 :=
              bfs_used_mono s f _ _ n (List.mem_cons_self n used)
            have h0 : (bfsCollect s f (rest ++ dependedBy s n) (n :: used)).1.count i = 0 := by
              rw [ih]
              rw [if_neg]
              rintro ⟨-, h2⟩
              exact h2 (by rw [hni]; exact List.mem_cons_self n used)
            have hone : (if (j == i) = true then 1 else 0) = 1 := by simp [hij]
            rw [h0, hone, if_pos ⟨by rw [hni]; exact hmem, by rw [hni]; exact hn⟩]
          · have hne : nameOf s i ≠ n := by
              intro he
              exact hij (nameOf_inj hnd hi hjl (he.trans hjn.symm))
            have hcons : (nameOf s i ∈ n :: used) ↔ (nameOf s i ∈ used) := by
              simp [List.mem_cons, hne]
            have hz : (if (j == i) = true then 1 else 0) = 0 := by
              simp
              exact fun hc => absurd hc.symm hij
            rw [hz, Nat.add_zero, ih]
            exact if_congr (and_congr_right (fun _ => not_congr hcons)) rfl rfl

/-- Marking an unused mapped name used lowers the unused weight by more
than the number of names depending on it. -/
lemma unusedWt_step {s : Store} {n : String} {j : Nat} {used : List String}
    (hm : blockMapIdx s n = some j) (hn : n ∉ used) :
    unusedWt s (n :: used) + (1 + (dependedBy s n).length) ≤ unusedWt s used := by
  obtain ⟨hjl, hjn⟩ := blockMapIdx_some hm
  unfold unusedWt
  have hjF : j ∈ (Finset.range s.length).filter (fun i => nameOf s i ∉ used) := by
    rw [Finset.mem_filter, Finset.mem_range]
    exact ⟨hjl, by rw [hjn]; exact hn⟩
  have hsub : (Finset.range s.length).filter (fun i => nameOf s i ∉ n :: used) ⊆
      ((Finset.range s.length).filter (fun i => nameOf s i ∉ used)).erase j := by
    intro k hk
    rw [Finset.mem_filter, Finset.mem_range] at hk
    obtain ⟨hkl, hkn⟩ := hk
    rw [Finset.mem_erase]
    refine ⟨?_, ?_⟩
    · intro hkj
      rw [hkj] at hkn
      exact hkn (by rw [hjn]; exact List.mem_cons_self n used)
    · rw [Finset.mem_filter, Finset.mem_range]
      exact ⟨hkl, fun hc => hkn (List.mem_cons_of_mem n hc)⟩
  have h1 : ∑ i ∈ (Finset.range s.length).filter (fun i => nameOf s i ∉ n :: used),
      (1 + (dependedBy s (nameOf s i)).length) ≤
      ∑ i ∈ ((Finset.range s.length).filter (fun i => nameOf s i ∉ used)).erase j,
      (1 + (dependedBy s (nameOf s i)).length) :=
    Finset.sum_le_sum_of_subset hsub
  have h2 : ∑ i ∈ ((Finset.range s.length).filter (fun i => nameOf s i ∉ used)).erase j,
      (1 + (dependedBy s (nameOf s i)).length) + (1 + (dependedBy s (nameOf s j)).length) =
      ∑ i ∈ (Finset.range s.length).filter (fun i => nameOf s i ∉ used),
      (1 + (dependedBy s (nameOf s i)).length) :=
    Finset.sum_erase_add _ _ hjF
  rw [hjn] at h2
  omega

/-- A collection run given at least its potential in fuel, started from a
work list that repairs all closure defects of the used set, ends with a
closed used set. -/
lemma bfs_closed (s : Store) :
    ∀ (fuel : Nat) (tp used : List String),
      bfsPot s tp used ≤ fuel → ClosedExceptDep s used tp →
      ClosedDep s (bfsCollect s fuel tp used).2 := by
  intro fuel
  induction fuel with
  | zero =>
    intro tp used hpot hce
    have htp : tp = [] := by
      refine List.length_eq_zero.mp ?_
      unfold bfsPot at hpot
      omega
    subst htp
    intro n hn m hm hmap
    rcases hce n hn m hm hmap with h | h
    · exact h
    · exact absurd h (List.not_mem_nil m)
  | succ f ih =>
    intro tp used hpot hce
    cases tp with
    | nil =>
      intro n hn m hm hmap
      rcases hce n hn m hm hmap with h | h
      · exact h
      · exact absurd h (List.not_mem_nil m)
    | cons n rest =>
      simp only [bfsCollect]
      by_cases hn : n ∈ used
      · rw [if_pos hn]
        refine ih rest used ?_ ?_
        · unfold bfsPot at hpot ⊢
          simp only [List.length_cons] at hpot
          omega
        · intro x hx m hm hmap
          rcases hce x hx m hm hmap with h | h
          · exact Or.inl h
          · rcases List.mem_cons.mp h with h | h
            · exact Or.inl (h ▸ hn)
            · exact Or.inr h
      · rw [if_neg hn]
        cases hmb : blockMapIdx s n with
        | none =>
          refine ih rest used ?_ ?_
          · unfold bfsPot at hpot ⊢
            simp only [List.length_cons] at hpot
            omega
          · intro x hx m hm hmap
            rcases hce x hx m hm hmap with h | h
            · exact Or.inl h
            · rcases List.mem_cons.mp h with h | h
              · exact absurd (h ▸ hmb) hmap
              · exact Or.inr h
        | some j =>
          show ClosedDep s (bfsCollect s f (rest ++ dependedBy s n) (n :: used)).2
          refine ih (rest ++ dependedBy s n) (n :: used) ?_ ?_
          · have hstep := unusedWt_step hmb hn
            unfold bfsPot at hpot ⊢
            simp only [List.length_cons, List.length_append] at hpot ⊢
            omega
          · intro x hx m hm hmap
            rcases List.mem_cons.mp hx with hx | hx
            · exact Or.inr (List.mem_append_right rest (hx ▸ hm))
            · rcases hce x hx m hm hmap with h | h
              · exact Or.inl (List.mem_cons_of_mem n h)
              · rcases List.mem_cons.mp h with h | h
                · exact Or.inl (h ▸ List.mem_cons_self n used)
                · exact Or.inr (List.mem_append_left _ h)

/-- The potential of a single-name work list is at most the fuel budget
the grouping loop hands to the collection. -/
lemma bfsPot_start_le (s : Store) (n : String) (used : List String) :
    bfsPot s [n] used ≤ bfsFuel s := by
  unfold bfsPot bfsFuel unusedWt
  have h1 : ∀ i ∈ (Finset.range s.length).filter (fun i => nameOf s i ∉ used),
      1 + (dependedBy s (nameOf s i)).length ≤ 1 + s.length := by
    intro i _
    have hd : (dependedBy s (nameOf s i)).length ≤ s.length := by
      unfold dependedBy
      rw [List.length_map]
      exact List.length_filter_le _ s
    omega
  have h2 := Finset.sum_le_card_nsmul
    ((Finset.range s.length).filter (fun i => nameOf s i ∉ used))
    (fun i => 1 + (dependedBy s (nameOf s i)).length) (1 + s.length) h1
  have h3 : ((Finset.range s.length).filter (fun i => nameOf s i ∉ used)).card ≤ s.length := by
    calc ((Finset.range s.length).filter (fun i => nameOf s i ∉ used)).card
        ≤ (Finset.range s.length).card := Finset.card_filter_le _ _
      _ = s.length := Finset.card_range _
  rw [smul_eq_mul] at h2
  have h4 : ∑ i ∈ (Finset.range s.length).filter (fun i => nameOf s i ∉ used),
      (1 + (dependedBy s (nameOf s i)).length) ≤ s.length * (1 + s.length) :=
    le_trans h2 (Nat.mul_le_mul_right _ h3)
  simp only [List.length_cons, List.length_nil]
  nlinarith [h4]

/-- Every group emitted by the outer grouping loop is non-empty. -/
lemma groupsAux_ne (s : Store) :
    ∀ (idxs : List Nat) (used : List String) (g : List Nat),
      g ∈ groupsAux s idxs used → g ≠ [] := by
  intro idxs
  induction idxs with
  | nil =>
    intro used g hg
    simp [groupsAux] at hg
  | cons a rest ih =>
    intro used g hg
    simp only [groupsAux] at hg
    by_cases ha : nameOf s a ∈ used
    · rw [if_pos ha] at hg
      exact ih used g hg
    · rw [if_neg ha] at hg
      by_cases hE : (bfsCollect s (bfsFuel s)
          [nameOf s (chainRoot s (s.length + 1) a [nameOf s a])] used).1.isEmpty
      · rw [if_pos hE] at hg
        exact ih _ g hg
      · rw [if_neg hE] at hg
        rcases List.mem_cons.mp hg with h | h
        · intro hc
          rw [hc] at h
          exact hE (by rw [← h]; rfl)
        · exact ih _ g h

/-- Main invariant of the outer grouping loop: with a closed used set and
every remaining unused in-range index still pending, each in-range index
ends up counted once across the emitted groups if its name is unused, and
not at all if its name is already used. -/
lemma groupsAux_count {s : Store} (hnd : (s.map Block.name).Nodup) {i : Nat}
    (hi : i < s.length) :
    ∀ (idxs : List Nat) (used : List String),
      (∀ k ∈ idxs, k < s.length) →
      ClosedDep s used →
      (nameOf s i ∉ used → i ∈ idxs) →
      (groupsAux s idxs used).flatten.count i =
        if nameOf s i ∈ used then 0 else 1 := by
  intro idxs
  induction idxs with
  | nil =>
    intro used _ _ h2
    simp only [groupsAux, List.flatten_nil, List.count_nil]
    by_cases hu : nameOf s i ∈ used
    · rw [if_pos hu]
    · exact absurd (h2 hu) (List.not_mem_nil i)
  | cons a rest ih =>
    intro used hb hcl h2
    have hal : a < s.length := hb a (List.mem_cons_self a rest)
    simp only [groupsAux]
    by_cases ha : nameOf s a ∈ used
    · rw [if_pos ha]
      refine ih used (fun k hk => hb k (List.mem_cons_of_mem a hk)) hcl ?_
      intro hnu
      rcases List.mem_cons.mp (h2 hnu) with h | h
      · exact absurd (h ▸ ha) hnu
      · exact h
    · rw [if_neg ha]
      have hmapa : blockMapIdx s (nameOf s a) ≠ none := by
        rw [blockMapIdx_self hnd hal]
        exact fun hc => Option.noConfusion hc
      have hmaprt : blockMapIdx s
          (nameOf s (chainRoot s (s.length + 1) a [nameOf s a])) ≠ none :=
        chainRoot_mapped s (s.length + 1) a [nameOf s a] hmapa
      obtain ⟨j, hj⟩ := Option.ne_none_iff_exists.mp hmaprt
      have hchain := chainRoot_chain s (s.length + 1) a [nameOf s a]
      have hrtu : nameOf s (chainRoot s (s.length + 1) a [nameOf s a]) ∉ used := by
        intro hc
        exact ha (chain_used hcl hchain hmapa hc)
      have hfu : 1 ≤ bfsFuel s := by
        unfold bfsFuel
        nlinarith [s.length]
      have hrtB : nameOf s (chainRoot s (s.length + 1) a [nameOf s a]) ∈
          (bfsCollect s (bfsFuel s)
            [nameOf s (chainRoot s (s.length + 1) a [nameOf s a])] used).2 :=
        bfs_head_used s (bfsFuel s) hfu [] used hrtu hj.symm
      have hclosed : ClosedDep s (bfsCollect s (bfsFuel s)
          [nameOf s (chainRoot s (s.length + 1) a [nameOf s a])] used).2 := by
        refine bfs_closed s (bfsFuel s) _ used (bfsPot_start_le s _ used) ?_
        exact fun x hx m hm hmap => Or.inl (hcl x hx m hm hmap)
      have haB : nameOf s a ∈ (bfsCollect s (bfsFuel s)
          [nameOf s (chainRoot s (s.length + 1) a [nameOf s a])] used).2 :=
        chain_used hclosed hchain hmapa hrtB
      have husedB : ∀ x ∈ used, x ∈ (bfsCollect s (bfsFuel s)
          [nameOf s (chainRoot s (s.length + 1) a [nameOf s a])] used).2 :=
        fun x hx => bfs_used_mono s (bfsFuel s) _ used x hx
      have hrest : (groupsAux s rest (bfsCollect s (bfsFuel s)
          [nameOf s (chainRoot s (s.length + 1) a [nameOf s a])] used).2).flatten.count i =
          if nameOf s i ∈ (bfsCollect s (bfsFuel s)
            [nameOf s (chainRoot s (s.length + 1) a [nameOf s a])] used).2
          then 0 else 1 := by
        refine ih _ (fun k hk => hb k (List.mem_cons_of_mem a hk)) hclosed ?_
        intro hnu
        have hnuu : nameOf s i ∉ used := fun hc => hnu (husedB _ hc)
        rcases List.mem_cons.mp (h2 hnuu) with h | h
        · exact absurd (h ▸ haB) hnu
        · exact h
      have hcnt : (bfsCollect s (bfsFuel s)
          [nameOf s (chainRoot s (s.length + 1) a [nameOf s a])] used).1.count i =
          if nameOf s i ∈ (bfsCollect s (bfsFuel s)
            [nameOf s (chainRoot s (s.length + 1) a [nameOf s a])] used).2 ∧
            nameOf s i ∉ used then 1 else 0 :=
        bfs_count hnd hi (bfsFuel s) _ used
      have hsplit : (if (bfsCollect s (bfsFuel s)
            [nameOf s (chainRoot s (s.length + 1) a [nameOf s a])] used).1.isEmpty
          then groupsAux s rest (bfsCollect s (bfsFuel s)
            [nameOf s (chainRoot s (s.length + 1) a [nameOf s a])] used).2
          else (bfsCollect s (bfsFuel s)
            [nameOf s (chainRoot s (s.length + 1) a [nameOf s a])] used).1 ::
            groupsAux s rest (bfsCollect s (bfsFuel s)
              [nameOf s (chainRoot s (s.length + 1) a [nameOf s a])] used).2).flatten.count i =
          (bfsCollect s (bfsFuel s)
            [nameOf s (chainRoot s (s.length + 1) a [nameOf s a])] used).1.count i +
          (groupsAux s rest (bfsCollect s (bfsFuel s)
            [nameOf s (chainRoot s (s.length + 1) a [nameOf s a])] used).2).flatten.count i := by
        by_cases hE : (bfsCollect s (bfsFuel s)
            [nameOf s (chainRoot s (s.length + 1) a [nameOf s a])] used).1.isEmpty
        · rw [if_pos hE, List.isEmpty_iff.mp hE, List.count_nil]
          omega
        · rw [if_neg hE, List.flatten_cons, List.count_append]
      rw [hsplit, hcnt, hrest]
      by_cases hu : nameOf s i ∈ used
      · rw [if_pos hu, if_pos (husedB _ hu),
          if_neg (by rintro ⟨-, hc⟩; exact hc hu)]
      · rw [if_neg hu]
        by_cases hbn : nameOf s i ∈ (bfsCollect s (bfsFuel s)
            [nameOf s (chainRoot s (s.length + 1) a [nameOf s a])] used).2
        · rw [if_pos ⟨hbn, hu⟩, if_pos hbn]
        · rw [if_neg (by rintro ⟨hc, -⟩; exact hbn hc), if_neg hbn]

/-- C6 (amended): for every block list with pairwise-distinct names, the
neighbor grouping puts every block index in exactly one group, and every
emitted group is non-empty. -/
theorem C6_grouping_amended (s : Store) (hnd : (s.map Block.name).Nodup) :
    (∀ i, i < s.length → (group_neighbors s).flatten.count i = 1) ∧
    ∀ g ∈ group_neighbors s, g ≠ [] := by
  constructor
  · intro i hi
    unfold group_neighbors
    rw [groupsAux_count hnd hi (List.range s.length) []
      (fun k hk => List.mem_range.mp hk)
      (fun n hn => absurd hn (List.not_mem_nil n))
      (fun _ => List.mem_range.mpr hi)]
    rw [if_neg (List.not_mem_nil _)]
  · exact fun g hg => groupsAux_ne s _ _ g hg

/-- Witness for the amended grouping theorem on a store with an isolated
block, a two-cycle with an extra dependent, and a dangling reference. -/
theorem C6_grouping_amended_witness :
    (c6W.map Block.name).Nodup ∧
    ((∀ i, i < c6W.length → (group_neighbors c6W).flatten.count i = 1) ∧
     ∀ g ∈ group_neighbors c6W, g ≠ []) :=
  ⟨by decide, C6_grouping_amended c6W (by decide)⟩

/-- C6 counterexample to the unrestricted claim: with two blocks sharing
the name "A", the first block appears in no group at all, because the name
map keeps only the last index for each name and the breadth-first
collection marks the shared name used after emitting that one index. -/
theorem C6_cex_duplicate_names :
    c6Dup.length = 2 ∧ (group_neighbors c6Dup).flatten.count 0 = 0 := by
  decide
